import Mathlib

/-!
# Verification of the UDSL core evaluator

A shallow embedding of `packages/core/src/evaluator.ts` (value resolution,
operation execution, conditional branching, pipeline execution and plugin
dispatch) together with the data model of `packages/core/src/types.ts`,
and proofs of the specified properties.

JSON-style runtime values are modelled by the inductive type `Value`:
records as ordered association lists (insertion order preserved, keys
unique by construction in the JS runtime), numbers as integers (the
properties at issue only distinguish zero from non-zero), `Date` objects
as an abstract instant `date n`, and the distinguished JS values `null`
and `undefined` as separate constructors.  Host-level mutable state (the
module-level temp-id counter, the wall clock consumed by `new Date()`,
and the call sequence of a user-supplied temp-id generator) is passed
explicitly through an `RState` record.
-/

namespace UDSL

/-- JS runtime values as consumed by the evaluator. -/
inductive Value where
  | null : Value
  | undefined : Value
  | bool : Bool → Value
  | num : Int → Value
  | str : String → Value
  | date : Nat → Value
  | arr : List Value → Value
  | obj : List (String × Value) → Value
deriving Repr

/-- `'k' in obj` — key presence in a JS object (the value may be `undefined`). -/
def hasKey : List (String × Value) → String → Bool
  | [], _ => false
  | (k', _) :: rest, k => k' == k || hasKey rest k

/-- `obj[k]` on a plain object, with an explicit default for an absent key. -/
def lookupD : List (String × Value) → String → Value → Value
  | [], _, d => d
  | (k', v) :: rest, k, d => if k' == k then v else lookupD rest k d

/-- Property read on an object-typed JS value (plain object, array, Date):
array data properties are canonical numeric indices, Dates have no own
enumerable data properties.  Primitives are handled by the callers. -/
def propAccess : Value → String → Value
  | .obj fields, k => lookupD fields k .undefined
  | .arr xs, k =>
      match k.toNat? with
      | some i => if toString i == k then xs.getD i .undefined else .undefined
      | none => .undefined
  | _, _ => .undefined

/-- `s.split('.')` of the JS string library (no limit). -/
def splitDotAux : List Char → List Char → List String
  | [], acc => [String.mk acc.reverse]
  | c :: cs, acc =>
      if c = '.' then String.mk acc.reverse :: splitDotAux cs []
      else splitDotAux cs (c :: acc)

/-- `path.split('.')` on a Lean string. -/
def jsSplitDot (s : String) : List String :=
  splitDotAux s.data []

/-- The dot-path walk of `getNestedValue` (evaluator.ts lines 84-95):
`null`/`undefined` and non-objects at an intermediate step yield
`undefined`, otherwise the next segment is read as a property. -/
def getNested : List String → Value → Value
  | [], cur => cur
  | p :: ps, cur =>
      match cur with
      | .null => .undefined
      | .undefined => .undefined
      | .bool _ => .undefined
      | .num _ => .undefined
      | .str _ => .undefined
      | cur => getNested ps (propAccess cur p)

/-- `getNestedValue(obj, path)`: dot-notation lookup. -/
def getNestedValue (obj : Value) (path : String) : Value :=
  getNested (jsSplitDot path) obj

/-- `isTruthy` — DSL truthiness (evaluator.ts lines 100-107). -/
def isTruthy : Value → Bool
  | .null => false
  | .undefined => false
  | .bool b => b
  | .num n => !(n == 0)
  | .str s => !(s == "")
  | .arr xs => !xs.isEmpty
  | _ => true

/-- `value === undefined`. -/
def isUndef : Value → Bool
  | .undefined => true
  | _ => false

/-- `value === null || value === undefined` (property access on such a value
raises a host `TypeError`). -/
def isNullish : Value → Bool
  | .null => true
  | .undefined => true
  | _ => false

theorem one_le_sizeOf_value (v : Value) : 1 ≤ sizeOf v := by
  cases v <;> simp_arith

theorem lookupD_dflt_sizeOf_le (fs : List (String × Value)) (k : String) :
    sizeOf (lookupD fs k .undefined) ≤ sizeOf fs := by
  induction fs with
  | nil => simp [lookupD]
  | cons hd rest ih =>
      obtain ⟨k', v⟩ := hd
      simp only [lookupD]
      split
      · simp only [List.cons.sizeOf_spec, Prod.mk.sizeOf_spec]
        omega
      · refine Nat.le_trans ih ?_
        simp only [List.cons.sizeOf_spec, Prod.mk.sizeOf_spec]
        omega

theorem getD_dflt_sizeOf_le (xs : List Value) (i : Nat) :
    sizeOf (xs.getD i .undefined) ≤ sizeOf xs := by
  induction xs generalizing i with
  | nil => simp [List.getD]
  | cons x rest ih =>
      cases i with
      | zero => simp only [List.getD_cons_zero, List.cons.sizeOf_spec]; omega
      | succ j =>
          simp only [List.getD_cons_succ]
          refine Nat.le_trans (ih j) ?_
          simp only [List.cons.sizeOf_spec]
          omega

theorem propAccess_sizeOf_le (v : Value) (k : String) :
    sizeOf (propAccess v k) ≤ sizeOf v := by
  cases v with
  | obj fs =>
      simp only [propAccess, Value.obj.sizeOf_spec]
      exact Nat.le_trans (lookupD_dflt_sizeOf_le fs k) (by omega)
  | arr xs =>
      simp only [propAccess]
      split
      · split
        · simp only [Value.arr.sizeOf_spec]
          exact Nat.le_trans (getD_dflt_sizeOf_le xs _) (by omega)
        · simp_arith
      · simp_arith
  | null => simp_arith [propAccess]
  | undefined => simp_arith [propAccess]
  | bool b => simp_arith [propAccess]
  | num n => simp_arith [propAccess]
  | str t => simp_arith [propAccess]
  | date n => simp_arith [propAccess]

theorem sizeOf_lt_obj (fs : List (String × Value)) :
    sizeOf fs < sizeOf (Value.obj fs) := by
  simp_arith

theorem sizeOf_lt_arr (xs : List Value) :
    sizeOf xs < sizeOf (Value.arr xs) := by
  simp_arith

theorem lookupD_lt_obj (fs : List (String × Value)) (k : String) :
    sizeOf (lookupD fs k .undefined) < sizeOf (Value.obj fs) :=
  Nat.lt_of_le_of_lt (lookupD_dflt_sizeOf_le fs k) (sizeOf_lt_obj fs)

theorem propLookup_lt_obj (fs : List (String × Value)) (k k' : String) :
    sizeOf (propAccess (lookupD fs k .undefined) k') < sizeOf (Value.obj fs) :=
  Nat.lt_of_le_of_lt
    (Nat.le_trans (propAccess_sizeOf_le _ k') (lookupD_dflt_sizeOf_le fs k))
    (sizeOf_lt_obj fs)

/-- Host-level mutable state threaded through resolution: the module-level
`tempIdCounter`, the number of calls already made to a caller-supplied
temp-id generator, and the wall clock sampled by `new Date()`. -/
structure RState where
  counter : Nat
  genCalls : Nat
  clock : Nat
deriving Repr, DecidableEq

/-- `resetTempIdCounter()` (evaluator.ts lines 77-79). -/
def resetTempIdCounter (s : RState) : RState :=
  { s with counter := 0 }

/-- `EvalContext` of types.ts: `results` is optional here because resolving
a `$ref` outside any pipeline run means `ctx.results` is `undefined`
(the `resolve` helper closure passed to handlers is not modelled).
A caller-supplied temp-id generator is modelled as a function of its own
call index. -/
structure EvalContext where
  input : Value
  results : Option (List (String × Value))
  now : Option Nat
  tempId : Option (Nat → String)

/-- `ctx.results` as the value handed to `getNestedValue`. -/
def resultsValue (ctx : EvalContext) : Value :=
  match ctx.results with
  | none => .undefined
  | some t => .obj t

/-- The error classes that can escape evaluation: `EvaluationError`
raised by the engine, and host `TypeError`s (e.g. calling `.split` on a
non-string path). -/
inductive EvalError where
  | evaluationError : String → EvalError
  | typeError : String → EvalError
deriving Repr, DecidableEq

mutual

/-- `resolveValue(value, ctx)` (evaluator.ts lines 112-171), with the
host state threaded explicitly.  The returned state is meaningful even
on an error (mutations performed before a throw persist). -/
def resolveValue (v : Value) (ctx : EvalContext) (s : RState) :
    RState × Except EvalError Value :=
  match v with
  | .null => (s, .ok .null)
  | .undefined => (s, .ok .undefined)
  | .bool b => (s, .ok (.bool b))
  | .num n => (s, .ok (.num n))
  | .str t => (s, .ok (.str t))
  -- a Date reaches the plain-object branch: no marker key is present and
  -- `Object.entries` of a Date is empty, so it resolves to `{}`
  | .date _ => (s, .ok (.obj []))
  | .arr xs =>
      match resolveList xs ctx s with
      | (s', .ok rs) => (s', .ok (.arr rs))
      | (s', .error e) => (s', .error e)
  | .obj fields =>
      if hasKey fields "$input" then
        match lookupD fields "$input" .undefined with
        | .str p => (s, .ok (getNestedValue ctx.input p))
        | _ => (s, .error (.typeError "path.split is not a function"))
      else if hasKey fields "$ref" then
        match lookupD fields "$ref" .undefined with
        | .str p => (s, .ok (getNestedValue (resultsValue ctx) p))
        | _ => (s, .error (.typeError "path.split is not a function"))
      else if hasKey fields "$now" then
        match ctx.now with
        | some n => (s, .ok (.date n))
        | none => ({ s with clock := s.clock + 1 }, .ok (.date s.clock))
      else if hasKey fields "$temp" then
        match ctx.tempId with
        | some g => ({ s with genCalls := s.genCalls + 1 }, .ok (.str (g s.genCalls)))
        | none =>
            ({ s with counter := s.counter + 1 },
              .ok (.str ("temp_" ++ toString (s.counter + 1))))
      else if hasKey fields "$inc" then
        (s, .ok (.obj [("$inc", lookupD fields "$inc" .undefined)]))
      else if hasKey fields "$dec" then
        (s, .ok (.obj [("$dec", lookupD fields "$dec" .undefined)]))
      else if hasKey fields "$push" then
        match resolveValue (lookupD fields "$push" .undefined) ctx s with
        | (s', .ok r) => (s', .ok (.obj [("$push", r)]))
        | (s', .error e) => (s', .error e)
      else if hasKey fields "$pull" then
        match resolveValue (lookupD fields "$pull" .undefined) ctx s with
        | (s', .ok r) => (s', .ok (.obj [("$pull", r)]))
        | (s', .error e) => (s', .error e)
      else if hasKey fields "$addToSet" then
        match resolveValue (lookupD fields "$addToSet" .undefined) ctx s with
        | (s', .ok r) => (s', .ok (.obj [("$addToSet", r)]))
        | (s', .error e) => (s', .error e)
      else if hasKey fields "$default" then
        (s, .ok (lookupD fields "$default" .undefined))
      else if hasKey fields "$if" then
        -- `const cond = obj.$if` followed by the property reads
        -- `cond.cond` / `cond.then` / `cond.else`; reading a property of
        -- `null`/`undefined` raises a TypeError
        if isNullish (lookupD fields "$if" .undefined) then
          (s, .error (.typeError "cannot read properties of null or undefined"))
        else
          match resolveValue (propAccess (lookupD fields "$if" .undefined) "cond") ctx s with
          | (s', .error e) => (s', .error e)
          | (s', .ok cv) =>
              if isTruthy cv then
                resolveValue (propAccess (lookupD fields "$if" .undefined) "then") ctx s'
              else if isUndef (propAccess (lookupD fields "$if" .undefined) "else") then
                (s', .ok .undefined)
              else
                resolveValue (propAccess (lookupD fields "$if" .undefined) "else") ctx s'
      else
        match resolveFields fields ctx s with
        | (s', .ok rs) => (s', .ok (.obj rs))
        | (s', .error e) => (s', .error e)
termination_by sizeOf v
decreasing_by
  all_goals simp_wf
  all_goals first
    | omega
    | exact Nat.lt_of_le_of_lt (lookupD_dflt_sizeOf_le _ _) (by omega)
    | exact Nat.lt_of_le_of_lt
        (Nat.le_trans (propAccess_sizeOf_le _ _) (lookupD_dflt_sizeOf_le _ _)) (by omega)

/-- Element-wise resolution of an array, threading state left to right. -/
def resolveList (xs : List Value) (ctx : EvalContext) (s : RState) :
    RState × Except EvalError (List Value) :=
  match xs with
  | [] => (s, .ok [])
  | x :: rest =>
      match resolveValue x ctx s with
      | (s', .ok r) =>
          match resolveList rest ctx s' with
          | (s'', .ok rs) => (s'', .ok (r :: rs))
          | (s'', .error e) => (s'', .error e)
      | (s', .error e) => (s', .error e)
termination_by sizeOf xs
decreasing_by
  all_goals simp_wf
  all_goals omega

/-- Value-wise resolution of a plain object, preserving key order. -/
def resolveFields (fields : List (String × Value)) (ctx : EvalContext) (s : RState) :
    RState × Except EvalError (List (String × Value)) :=
  match fields with
  | [] => (s, .ok [])
  | (k, v) :: rest =>
      match resolveValue v ctx s with
      | (s', .ok r) =>
          match resolveFields rest ctx s' with
          | (s'', .ok rs) => (s'', .ok ((k, r) :: rs))
          | (s'', .error e) => (s'', .error e)
      | (s', .error e) => (s', .error e)
termination_by sizeOf fields
decreasing_by
  all_goals simp_wf
  all_goals omega

end

/-! ## Unfolding lemmas for `resolveValue`

One rewrite lemma per branch of the source function, with the guards of
the earlier branches as hypotheses, mirroring the top-to-bottom check
order of evaluator.ts. -/

theorem resolveValue_null (ctx : EvalContext) (s : RState) :
    resolveValue .null ctx s = (s, .ok .null) := by
  rw [resolveValue]

theorem resolveValue_undefined (ctx : EvalContext) (s : RState) :
    resolveValue .undefined ctx s = (s, .ok .undefined) := by
  rw [resolveValue]

theorem resolveValue_bool (b : Bool) (ctx : EvalContext) (s : RState) :
    resolveValue (.bool b) ctx s = (s, .ok (.bool b)) := by
  rw [resolveValue]

theorem resolveValue_num (n : Int) (ctx : EvalContext) (s : RState) :
    resolveValue (.num n) ctx s = (s, .ok (.num n)) := by
  rw [resolveValue]

theorem resolveValue_str (t : String) (ctx : EvalContext) (s : RState) :
    resolveValue (.str t) ctx s = (s, .ok (.str t)) := by
  rw [resolveValue]

theorem resolveValue_date (n : Nat) (ctx : EvalContext) (s : RState) :
    resolveValue (.date n) ctx s = (s, .ok (.obj [])) := by
  rw [resolveValue]

theorem resolveValue_arr (xs : List Value) (ctx : EvalContext) (s : RState) :
    resolveValue (.arr xs) ctx s =
      (match resolveList xs ctx s with
        | (s', .ok rs) => (s', .ok (.arr rs))
        | (s', .error e) => (s', .error e)) := by
  rw [resolveValue]

theorem resolveList_nil (ctx : EvalContext) (s : RState) :
    resolveList [] ctx s = (s, .ok []) := by
  rw [resolveList]

theorem resolveList_cons (x : Value) (rest : List Value) (ctx : EvalContext)
    (s : RState) :
    resolveList (x :: rest) ctx s =
      (match resolveValue x ctx s with
        | (s', .ok r) =>
            match resolveList rest ctx s' with
            | (s'', .ok rs) => (s'', .ok (r :: rs))
            | (s'', .error e) => (s'', .error e)
        | (s', .error e) => (s', .error e)) := by
  rw [resolveList]

theorem resolveFields_nil (ctx : EvalContext) (s : RState) :
    resolveFields [] ctx s = (s, .ok []) := by
  rw [resolveFields]

theorem resolveFields_cons (k : String) (v : Value)
    (rest : List (String × Value)) (ctx : EvalContext) (s : RState) :
    resolveFields ((k, v) :: rest) ctx s =
      (match resolveValue v ctx s with
        | (s', .ok r) =>
            match resolveFields rest ctx s' with
            | (s'', .ok rs) => (s'', .ok ((k, r) :: rs))
            | (s'', .error e) => (s'', .error e)
        | (s', .error e) => (s', .error e)) := by
  rw [resolveFields]

theorem resolveValue_input (fields : List (String × Value))
    (ctx : EvalContext) (s : RState) (p : String)
    (hk : hasKey fields "$input" = true)
    (hp : lookupD fields "$input" .undefined = .str p) :
    resolveValue (.obj fields) ctx s = (s, .ok (getNestedValue ctx.input p)) := by
  rw [resolveValue]
  simp [hk, hp]

theorem resolveValue_ref (fields : List (String × Value))
    (ctx : EvalContext) (s : RState) (p : String)
    (h1 : hasKey fields "$input" = false)
    (hk : hasKey fields "$ref" = true)
    (hp : lookupD fields "$ref" .undefined = .str p) :
    resolveValue (.obj fields) ctx s =
      (s, .ok (getNestedValue (resultsValue ctx) p)) := by
  rw [resolveValue]
  simp [h1, hk, hp]

theorem resolveValue_now_some (fields : List (String × Value))
    (ctx : EvalContext) (s : RState) (n : Nat)
    (h1 : hasKey fields "$input" = false)
    (h2 : hasKey fields "$ref" = false)
    (hk : hasKey fields "$now" = true)
    (hn : ctx.now = some n) :
    resolveValue (.obj fields) ctx s = (s, .ok (.date n)) := by
  rw [resolveValue]
  simp [h1, h2, hk, hn]

theorem resolveValue_now_none (fields : List (String × Value))
    (ctx : EvalContext) (s : RState)
    (h1 : hasKey fields "$input" = false)
    (h2 : hasKey fields "$ref" = false)
    (hk : hasKey fields "$now" = true)
    (hn : ctx.now = none) :
    resolveValue (.obj fields) ctx s =
      ({ s with clock := s.clock + 1 }, .ok (.date s.clock)) := by
  rw [resolveValue]
  simp [h1, h2, hk, hn]

theorem resolveValue_temp_gen (fields : List (String × Value))
    (ctx : EvalContext) (s : RState) (g : Nat → String)
    (h1 : hasKey fields "$input" = false)
    (h2 : hasKey fields "$ref" = false)
    (h3 : hasKey fields "$now" = false)
    (hk : hasKey fields "$temp" = true)
    (hg : ctx.tempId = some g) :
    resolveValue (.obj fields) ctx s =
      ({ s with genCalls := s.genCalls + 1 }, .ok (.str (g s.genCalls))) := by
  rw [resolveValue]
  simp [h1, h2, h3, hk, hg]

theorem resolveValue_temp_counter (fields : List (String × Value))
    (ctx : EvalContext) (s : RState)
    (h1 : hasKey fields "$input" = false)
    (h2 : hasKey fields "$ref" = false)
    (h3 : hasKey fields "$now" = false)
    (hk : hasKey fields "$temp" = true)
    (hg : ctx.tempId = none) :
    resolveValue (.obj fields) ctx s =
      ({ s with counter := s.counter + 1 },
        .ok (.str ("temp_" ++ toString (s.counter + 1)))) := by
  rw [resolveValue]
  simp [h1, h2, h3, hk, hg]

theorem resolveValue_inc (fields : List (String × Value))
    (ctx : EvalContext) (s : RState)
    (h1 : hasKey fields "$input" = false)
    (h2 : hasKey fields "$ref" = false)
    (h3 : hasKey fields "$now" = false)
    (h4 : hasKey fields "$temp" = false)
    (hk : hasKey fields "$inc" = true) :
    resolveValue (.obj fields) ctx s =
      (s, .ok (.obj [("$inc", lookupD fields "$inc" .undefined)])) := by
  rw [resolveValue]
  simp [h1, h2, h3, h4, hk]

theorem resolveValue_dec (fields : List (String × Value))
    (ctx : EvalContext) (s : RState)
    (h1 : hasKey fields "$input" = false)
    (h2 : hasKey fields "$ref" = false)
    (h3 : hasKey fields "$now" = false)
    (h4 : hasKey fields "$temp" = false)
    (h5 : hasKey fields "$inc" = false)
    (hk : hasKey fields "$dec" = true) :
    resolveValue (.obj fields) ctx s =
      (s, .ok (.obj [("$dec", lookupD fields "$dec" .undefined)])) := by
  rw [resolveValue]
  simp [h1, h2, h3, h4, h5, hk]

theorem resolveValue_push (fields : List (String × Value))
    (ctx : EvalContext) (s : RState)
    (h1 : hasKey fields "$input" = false)
    (h2 : hasKey fields "$ref" = false)
    (h3 : hasKey fields "$now" = false)
    (h4 : hasKey fields "$temp" = false)
    (h5 : hasKey fields "$inc" = false)
    (h6 : hasKey fields "$dec" = false)
    (hk : hasKey fields "$push" = true) :
    resolveValue (.obj fields) ctx s =
      (match resolveValue (lookupD fields "$push" .undefined) ctx s with
        | (s', .ok r) => (s', .ok (.obj [("$push", r)]))
        | (s', .error e) => (s', .error e)) := by
  rw [resolveValue]
  simp [h1, h2, h3, h4, h5, h6, hk]

theorem resolveValue_pull (fields : List (String × Value))
    (ctx : EvalContext) (s : RState)
    (h1 : hasKey fields "$input" = false)
    (h2 : hasKey fields "$ref" = false)
    (h3 : hasKey fields "$now" = false)
    (h4 : hasKey fields "$temp" = false)
    (h5 : hasKey fields "$inc" = false)
    (h6 : hasKey fields "$dec" = false)
    (h7 : hasKey fields "$push" = false)
    (hk : hasKey fields "$pull" = true) :
    resolveValue (.obj fields) ctx s =
      (match resolveValue (lookupD fields "$pull" .undefined) ctx s with
        | (s', .ok r) => (s', .ok (.obj [("$pull", r)]))
        | (s', .error e) => (s', .error e)) := by
  rw [resolveValue]
  simp [h1, h2, h3, h4, h5, h6, h7, hk]

theorem resolveValue_addToSet (fields : List (String × Value))
    (ctx : EvalContext) (s : RState)
    (h1 : hasKey fields "$input" = false)
    (h2 : hasKey fields "$ref" = false)
    (h3 : hasKey fields "$now" = false)
    (h4 : hasKey fields "$temp" = false)
    (h5 : hasKey fields "$inc" = false)
    (h6 : hasKey fields "$dec" = false)
    (h7 : hasKey fields "$push" = false)
    (h8 : hasKey fields "$pull" = false)
    (hk : hasKey fields "$addToSet" = true) :
    resolveValue (.obj fields) ctx s =
      (match resolveValue (lookupD fields "$addToSet" .undefined) ctx s with
        | (s', .ok r) => (s', .ok (.obj [("$addToSet", r)]))
        | (s', .error e) => (s', .error e)) := by
  rw [resolveValue]
  simp [h1, h2, h3, h4, h5, h6, h7, h8, hk]

theorem resolveValue_default (fields : List (String × Value))
    (ctx : EvalContext) (s : RState)
    (h1 : hasKey fields "$input" = false)
    (h2 : hasKey fields "$ref" = false)
    (h3 : hasKey fields "$now" = false)
    (h4 : hasKey fields "$temp" = false)
    (h5 : hasKey fields "$inc" = false)
    (h6 : hasKey fields "$dec" = false)
    (h7 : hasKey fields "$push" = false)
    (h8 : hasKey fields "$pull" = false)
    (h9 : hasKey fields "$addToSet" = false)
    (hk : hasKey fields "$default" = true) :
    resolveValue (.obj fields) ctx s =
      (s, .ok (lookupD fields "$default" .undefined)) := by
  rw [resolveValue]
  simp [h1, h2, h3, h4, h5, h6, h7, h8, h9, hk]

theorem resolveValue_if (fields : List (String × Value))
    (ctx : EvalContext) (s : RState)
    (h1 : hasKey fields "$input" = false)
    (h2 : hasKey fields "$ref" = false)
    (h3 : hasKey fields "$now" = false)
    (h4 : hasKey fields "$temp" = false)
    (h5 : hasKey fields "$inc" = false)
    (h6 : hasKey fields "$dec" = false)
    (h7 : hasKey fields "$push" = false)
    (h8 : hasKey fields "$pull" = false)
    (h9 : hasKey fields "$addToSet" = false)
    (h10 : hasKey fields "$default" = false)
    (hk : hasKey fields "$if" = true)
    (hnn : isNullish (lookupD fields "$if" .undefined) = false) :
    resolveValue (.obj fields) ctx s =
      (match resolveValue (propAccess (lookupD fields "$if" .undefined) "cond") ctx s with
        | (s', .error e) => (s', .error e)
        | (s', .ok cv) =>
            if isTruthy cv then
              resolveValue (propAccess (lookupD fields "$if" .undefined) "then") ctx s'
            else if isUndef (propAccess (lookupD fields "$if" .undefined) "else") then
              (s', .ok .undefined)
            else
              resolveValue (propAccess (lookupD fields "$if" .undefined) "else") ctx s') := by
  rw [resolveValue]
  simp [h1, h2, h3, h4, h5, h6, h7, h8, h9, h10, hk, hnn]

theorem resolveValue_plain (fields : List (String × Value))
    (ctx : EvalContext) (s : RState)
    (h1 : hasKey fields "$input" = false)
    (h2 : hasKey fields "$ref" = false)
    (h3 : hasKey fields "$now" = false)
    (h4 : hasKey fields "$temp" = false)
    (h5 : hasKey fields "$inc" = false)
    (h6 : hasKey fields "$dec" = false)
    (h7 : hasKey fields "$push" = false)
    (h8 : hasKey fields "$pull" = false)
    (h9 : hasKey fields "$addToSet" = false)
    (h10 : hasKey fields "$default" = false)
    (h11 : hasKey fields "$if" = false) :
    resolveValue (.obj fields) ctx s =
      (match resolveFields fields ctx s with
        | (s', .ok rs) => (s', .ok (.obj rs))
        | (s', .error e) => (s', .error e)) := by
  rw [resolveValue]
  simp [h1, h2, h3, h4, h5, h6, h7, h8, h9, h10, h11]

/-! ## Operation dispatch -/

/-- `effect.includes('.')`. -/
def hasDot (s : String) : Bool :=
  s.data.contains '.'

/-- `effect.split('.', 2)` — the limit truncates the full split. -/
def jsSplitDot2 (s : String) : List String :=
  (jsSplitDot s).take 2

/-- The namespace/effect-name split of `executeOperation`
(evaluator.ts lines 212-214):
`effect.includes('.') ? effect.split('.', 2) : ['core', effect]`,
destructured as `[namespace = 'core', effectName = effect]` (the
destructuring defaults apply only to a missing array element). -/
def parseEffect (effect : String) : String × String :=
  if hasDot effect then
    match jsSplitDot2 effect with
    | ns :: en :: _ => (ns, en)
    | [ns] => (ns, effect)
    | [] => ("core", effect)
  else
    ("core", effect)

/-- `Operation` of types.ts: `{$do, $with?, $as?, $only?}`.  The optional
`$with`/`$only` ValueRef fields are `Value.undefined` when absent, matching
the JS `undefined` they destructure to. -/
structure Operation where
  «$do» : String
  «$with» : Value := .undefined
  «$as» : Option String := none
  «$only» : Value := .undefined

mutual

/-- `Conditional` of types.ts: `{$when, $then, $else?, $as?}`. -/
inductive Conditional where
  | mk : Value → Branch → Option Branch → Option String → Conditional

/-- A `$then`/`$else` branch: a lone step or an array of steps. -/
inductive Branch where
  | one : PipelineStep → Branch
  | many : List PipelineStep → Branch

/-- `PipelineStep = Operation | Conditional`. -/
inductive PipelineStep where
  | op : Operation → PipelineStep
  | cond : Conditional → PipelineStep

end

def Conditional.«$when» : Conditional → Value
  | .mk w _ _ _ => w

def Conditional.«$then» : Conditional → Branch
  | .mk _ t _ _ => t

def Conditional.«$else» : Conditional → Option Branch
  | .mk _ _ e _ => e

def Conditional.«$as» : Conditional → Option String
  | .mk _ _ _ a => a

/-- `Pipeline` of types.ts: `{$pipe, $return?}`. -/
structure Pipeline where
  «$pipe» : List PipelineStep
  «$return» : Option Value := none

/-- `DSL = Operation | Conditional | Pipeline`. -/
inductive DSL where
  | op : Operation → DSL
  | cond : Conditional → DSL
  | pipe : Pipeline → DSL

/-- An effect handler `(resolvedArgs, ctx) -> result`; a thrown error or
rejected promise is an `Except.error`. -/
def EffectHandler : Type :=
  Value → EvalContext → Except EvalError Value

/-- A plugin: a namespace owning a map of named effect handlers. -/
structure Plugin where
  «namespace» : String
  effects : String → Option EffectHandler

/-- The plugin registry (`plugins.get` on the module-level `Map`). -/
def Registry : Type :=
  String → Option Plugin

/-- `OperationResult` of evaluator.ts. -/
structure OperationResult where
  name : Option String
  effect : String
  args : Value
  result : Value
  skipped : Bool

/-- `ConditionalResult` of evaluator.ts (`branch` is `"then"`/`"else"`). -/
structure ConditionalResult where
  name : Option String
  branch : String
  operations : List OperationResult
  result : Value

/-- `StepResult = OperationResult | ConditionalResult`. -/
inductive StepResult where
  | opR : OperationResult → StepResult
  | condR : ConditionalResult → StepResult

/-- Execution-level host state: resolution state plus the sequence of
handler invocations the engine has performed, recorded at the call site
as `(namespace, effectName, resolvedArgs)` (instrumentation used to state
"the handler was never invoked"). -/
structure ExecState where
  rstate : RState
  calls : List (String × String × Value)

/-- The unguarded tail of `executeOperation` (evaluator.ts lines 208-229):
resolve `$with`, split the effect, look up the plugin and handler, invoke. -/
def executeOperationBody (reg : Registry) (op : Operation) (ctx : EvalContext)
    (es : ExecState) : ExecState × Except EvalError OperationResult :=
  -- `$with: args = {}`
  let args := if isUndef op.«$with» then Value.obj [] else op.«$with»
  match resolveValue args ctx es.rstate with
  | (s', .error e) => ({ es with rstate := s' }, .error e)
  | (s', .ok resolvedArgs) =>
      let ns := (parseEffect op.«$do»).1
      let en := (parseEffect op.«$do»).2
      match reg ns with
      | none =>
          ({ es with rstate := s' },
            .error (.evaluationError ("Unknown plugin namespace: " ++ ns)))
      | some plugin =>
          match plugin.effects en with
          | none =>
              ({ es with rstate := s' },
                .error (.evaluationError ("Unknown effect: " ++ op.«$do»)))
          | some handler =>
              let es' : ExecState := ⟨s', es.calls ++ [(ns, en, resolvedArgs)]⟩
              match handler resolvedArgs ctx with
              | .error e => (es', .error e)
              | .ok result =>
                  (es', .ok ⟨op.«$as», op.«$do», resolvedArgs, result, false⟩)

/-- `executeOperation(operation, ctx)` (evaluator.ts lines 194-230).
The returned `ExecState` is meaningful also when an error is thrown
(mutations made before the throw persist). -/
def executeOperation (reg : Registry) (op : Operation) (ctx : EvalContext)
    (es : ExecState) : ExecState × Except EvalError OperationResult :=
  -- `if (condition !== undefined)` — the `$only` guard
  if isUndef op.«$only» then
    executeOperationBody reg op ctx es
  else
    match resolveValue op.«$only» ctx es.rstate with
    | (s', .error e) => ({ es with rstate := s' }, .error e)
    | (s', .ok cv) =>
        if isTruthy cv then
          executeOperationBody reg op ctx { es with rstate := s' }
        else
          ({ es with rstate := s' },
            .ok ⟨op.«$as», op.«$do», .obj [], .undefined, true⟩)

/-- JS object assignment `results[n] = v`: overwrite in place, append new
keys at the end (insertion order preserved). -/
def setKey : List (String × Value) → String → Value → List (String × Value)
  | [], n, v => [(n, v)]
  | (k, w) :: rest, n, v =>
      if k == n then (n, v) :: rest else (k, w) :: setKey rest n v

/-- `results[name] = v` guarded by JS truthiness of the name
(`if (result.name) …`): an empty-string name is falsy and is not bound. -/
def bindName (results : List (String × Value)) (name : Option String)
    (v : Value) : List (String × Value) :=
  match name with
  | none => results
  | some n => if n == "" then results else setKey results n v

/-- Normalize a branch to an array of steps
(`Array.isArray(branch) ? branch : [branch]`). -/
def normalizeBranch : Branch → List PipelineStep
  | .one s => [s]
  | .many ss => ss

theorem normalizeBranch_sizeOf_le (b : Branch) :
    sizeOf (normalizeBranch b) ≤ 1 + sizeOf b := by
  cases b with
  | one s => simp_arith [normalizeBranch]
  | many ss => simp_arith [normalizeBranch]

theorem one_le_sizeOf_option {α : Type} [SizeOf α] (o : Option α) :
    1 ≤ sizeOf o := by
  cases o <;> simp_arith

mutual

/-- `executeConditional(conditional, ctx, results)` (evaluator.ts lines
251-304).  `ctx.results` aliases `results` in the source (both come
from the same pipeline run), so every resolution below re-synchronizes
the context with the current table.  `$then` is non-optional in the
type, so the `if (!branch)` early return of the source can only fire
when the condition is falsy and `$else` is absent. -/
def executeConditional (reg : Registry) (c : Conditional) (ctx : EvalContext)
    (results : List (String × Value)) (es : ExecState) :
    ExecState × List (String × Value) × Except EvalError ConditionalResult :=
  match c with
  | .mk w t e a =>
      match resolveValue w { ctx with results := some results } es.rstate with
      | (s', .error err) => ({ es with rstate := s' }, results, .error err)
      | (s', .ok cv) =>
          if isTruthy cv then
            executeBranch reg "then" a (normalizeBranch t) ctx results
              { es with rstate := s' }
          else
            match e with
            | none =>
                ({ es with rstate := s' }, results,
                  .ok ⟨a, "else", [], .undefined⟩)
            | some b =>
                executeBranch reg "else" a (normalizeBranch b) ctx results
                  { es with rstate := s' }
termination_by sizeOf c
decreasing_by
  · simp_wf
    rename_i t' e' a'
    have h1 := normalizeBranch_sizeOf_le t'
    have h2 := one_le_sizeOf_value w
    have h3 := one_le_sizeOf_option e'
    omega
  · simp_wf
    rename_i t' a'
    have h1 := normalizeBranch_sizeOf_le b
    have h2 := one_le_sizeOf_value w
    omega

/-- Execution of a chosen branch and assembly of the `ConditionalResult`
(evaluator.ts lines 271-303). -/
def executeBranch (reg : Registry) (branchName : String) (a : Option String)
    (steps : List PipelineStep) (ctx : EvalContext)
    (results : List (String × Value)) (es : ExecState) :
    ExecState × List (String × Value) × Except EvalError ConditionalResult :=
  match execBranchSteps reg steps ctx results es [] .undefined with
  | (es', results', .error err) => (es', results', .error err)
  | (es', results', .ok (ops, last)) =>
      (es', results', .ok ⟨a, branchName, ops, last⟩)
termination_by 1 + sizeOf steps
decreasing_by
  all_goals simp_wf

/-- The branch loop of `executeConditional` (evaluator.ts lines 277-301),
threading the accumulated flattened operation list and `lastResult`. -/
def execBranchSteps (reg : Registry) (steps : List PipelineStep)
    (ctx : EvalContext) (results : List (String × Value)) (es : ExecState)
    (acc : List OperationResult) (last : Value) :
    ExecState × List (String × Value) ×
      Except EvalError (List OperationResult × Value) :=
  match steps with
  | [] => (es, results, .ok (acc, last))
  | .cond sc :: rest =>
      match executeConditional reg sc ctx results es with
      | (es', results', .error err) => (es', results', .error err)
      | (es', results', .ok cr) =>
          -- `if (condResult.name) results[condResult.name] = condResult.result`
          let results'' := bindName results' cr.name cr.result
          execBranchSteps reg rest ctx results'' es'
            (acc ++ cr.operations) cr.result
  | .op o :: rest =>
      match executeOperation reg o { ctx with results := some results } es with
      | (es', .error err) => (es', results, .error err)
      | (es', .ok orr) =>
          -- `if (opResult.name && !opResult.skipped)` bind, and
          -- `if (!opResult.skipped) lastResult = opResult.result`
          let results' := if orr.skipped then results
            else bindName results orr.name orr.result
          let last' := if orr.skipped then last else orr.result
          execBranchSteps reg rest ctx results' es' (acc ++ [orr]) last'
termination_by sizeOf steps
decreasing_by
  all_goals simp_wf
  all_goals omega

end

/-- One step of the pipeline loop: `executeStep(step, ctx, results)`
(evaluator.ts lines 312-321). -/
def executeStep (reg : Registry) (step : PipelineStep) (ctx : EvalContext)
    (results : List (String × Value)) (es : ExecState) :
    ExecState × List (String × Value) × Except EvalError StepResult :=
  match step with
  | .cond c =>
      match executeConditional reg c ctx results es with
      | (es', results', .error e) => (es', results', .error e)
      | (es', results', .ok cr) => (es', results', .ok (.condR cr))
  | .op o =>
      match executeOperation reg o ctx es with
      | (es', .error e) => (es', results, .error e)
      | (es', .ok orr) => (es', results, .ok (.opR orr))

/-- `options` of `executePipeline`: `{now?, tempId?}`. -/
structure ExecOptions where
  now : Option Nat := none
  tempId : Option (Nat → String) := none

/-- `createCtx()` of `executePipeline`: a context holding the caller
input, the (live) results table, and the options. -/
def mkCtx (input : List (String × Value)) (opts : ExecOptions)
    (results : List (String × Value)) : EvalContext :=
  ⟨.obj input, some results, opts.now, opts.tempId⟩

/-- The `for (const step of pipeline.$pipe)` loop of `executePipeline`
(evaluator.ts lines 355-369), including the pipeline-level binding of
named step results. -/
def execPipeSteps (reg : Registry) (input : List (String × Value))
    (opts : ExecOptions) (steps : List PipelineStep)
    (results : List (String × Value)) (es : ExecState)
    (acc : List StepResult) :
    ExecState × List (String × Value) × Except EvalError (List StepResult) :=
  match steps with
  | [] => (es, results, .ok acc)
  | step :: rest =>
      let ctx := mkCtx input opts results
      match executeStep reg step ctx results es with
      | (es', results', .error e) => (es', results', .error e)
      | (es', results', .ok sr) =>
          let results'' :=
            match sr with
            | .opR orr =>
                -- `if (stepResult.name && !stepResult.skipped)`
                if orr.skipped then results'
                else bindName results' orr.name orr.result
            | .condR cr =>
                -- `else if (stepResult.name)`
                bindName results' cr.name cr.result
          execPipeSteps reg input opts rest results'' es' (acc ++ [sr])

/-- `PipelineResult` of evaluator.ts. -/
structure PipelineResult where
  steps : List StepResult
  result : Value

/-- `executePipeline(pipeline, input, options)` (evaluator.ts lines
338-377).  `$return` is typed as a record, hence truthy whenever
present. -/
def executePipeline (reg : Registry) (p : Pipeline)
    (input : List (String × Value)) (opts : ExecOptions) (es : ExecState) :
    ExecState × Except EvalError PipelineResult :=
  match execPipeSteps reg input opts p.«$pipe» [] es [] with
  | (es', _, .error e) => (es', .error e)
  | (es', results', .ok stepRs) =>
      match p.«$return» with
      | none => (es', .ok ⟨stepRs, .obj results'⟩)
      | some ret =>
          match resolveValue ret (mkCtx input opts results') es'.rstate with
          | (s'', .error e) => ({ es' with rstate := s'' }, .error e)
          | (s'', .ok rv) => ({ es' with rstate := s'' }, .ok ⟨stepRs, rv⟩)

/-- `execute(dsl, input, options)` (evaluator.ts lines 387-407): a bare
Operation or Conditional is wrapped in a one-step pipeline.  (The
"Invalid DSL" branch is unreachable over the tagged `DSL` union.) -/
def execute (reg : Registry) (dsl : DSL) (input : List (String × Value))
    (opts : ExecOptions) (es : ExecState) :
    ExecState × Except EvalError PipelineResult :=
  match dsl with
  | .pipe p => executePipeline reg p input opts es
  | .op o => executePipeline reg ⟨[.op o], none⟩ input opts es
  | .cond c => executePipeline reg ⟨[.cond c], none⟩ input opts es

/-! ## Small facts about dot-path lookup -/

theorem splitDotAux_ne_nil (l : List Char) (acc : List Char) :
    splitDotAux l acc ≠ [] := by
  induction l generalizing acc with
  | nil => simp [splitDotAux]
  | cons c cs ih =>
      simp only [splitDotAux]
      split
      · simp
      · exact ih _

theorem getNested_undefined (ps : List String) : getNested ps .undefined = .undefined := by
  cases ps <;> rfl

theorem getNestedValue_undefined (p : String) : getNestedValue .undefined p = .undefined :=
  getNested_undefined _

theorem getNestedValue_emptyObj (p : String) :
    getNestedValue (.obj []) p = .undefined := by
  unfold getNestedValue jsSplitDot
  cases h : splitDotAux p.data [] with
  | nil => exact absurd h (splitDotAux_ne_nil _ _)
  | cons q qs => simp [getNested, propAccess, lookupD, getNested_undefined]

/-! ## Claim theorems -/

/-- The truthiness table row `If{c, "y", "n"}` as a DSL value. -/
def truthRow (c : Value) : Value :=
  .obj [("$if", .obj [("cond", c), ("then", .str "y"), ("else", .str "n")])]

/-- A context with empty input and an empty (but present) results table. -/
def ctxT : EvalContext := ⟨.obj [], some [], none, none⟩

/-- An arbitrary concrete resolution state. -/
def sT : RState := ⟨0, 0, 0⟩

/-- **C1** (confirmed).  DSL truthiness holds exactly as specified: a value
is falsy iff it is `null`, `undefined`, `false`, the number `0`, the
empty string, or the empty array — every other value, including an empty
plain object, a non-empty array and a non-zero number, is truthy; and the
`$if` conditional decides by exactly this table (all ten rows of the
spec's exhaustive table evaluate as stated). -/
theorem truthiness_exact :
    (∀ v : Value, isTruthy v = false ↔
      (v = .null ∨ v = .undefined ∨ v = .bool false ∨ v = .num 0 ∨
        v = .str "" ∨ v = .arr []))
    ∧ resolveValue (truthRow (.bool false)) ctxT sT = (sT, .ok (.str "n"))
    ∧ resolveValue (truthRow (.num 0)) ctxT sT = (sT, .ok (.str "n"))
    ∧ resolveValue (truthRow (.str "")) ctxT sT = (sT, .ok (.str "n"))
    ∧ resolveValue (truthRow (.arr [])) ctxT sT = (sT, .ok (.str "n"))
    ∧ resolveValue (truthRow .null) ctxT sT = (sT, .ok (.str "n"))
    ∧ resolveValue (truthRow (.bool true)) ctxT sT = (sT, .ok (.str "y"))
    ∧ resolveValue (truthRow (.num 1)) ctxT sT = (sT, .ok (.str "y"))
    ∧ resolveValue (truthRow (.str "a")) ctxT sT = (sT, .ok (.str "y"))
    ∧ resolveValue (truthRow (.arr [.num 1])) ctxT sT = (sT, .ok (.str "y"))
    ∧ resolveValue (truthRow (.obj [])) ctxT sT = (sT, .ok (.str "y")) := by
  refine ⟨?_, ?_, ?_, ?_, ?_, ?_, ?_, ?_, ?_, ?_, ?_⟩
  · intro v
    cases v <;> simp [isTruthy, List.isEmpty_iff]
  all_goals
    simp [truthRow, resolveValue, hasKey, lookupD, isNullish, isUndef,
      propAccess, isTruthy, resolveList, resolveFields]

/-- **C2** (counterexample).  Resolving `{$ref: "a"}` with `ctx.results`
absent does **not** fail the run: it returns `undefined`, exactly as the
empty-table context does.  The claimed usage error is never raised by
the core evaluator. -/
theorem ref_without_results_returns_absent_cex :
    resolveValue (.obj [("$ref", .str "a")]) ⟨.obj [], none, none, none⟩ sT
      = (sT, .ok .undefined)
    ∧ resolveValue (.obj [("$ref", .str "a")]) ⟨.obj [], some [], none, none⟩ sT
      = (sT, .ok .undefined) := by
  constructor <;>
    simp [resolveValue, hasKey, lookupD, getNestedValue, jsSplitDot,
      splitDotAux, getNested, resultsValue, propAccess]

/-- **C2** (amended).  Resolving a result reference `{$ref: p}` in a
context with no results table at all succeeds and yields the absent
value, for every path — identical to resolving against an existing but
empty table; no error distinguishes the two situations. -/
theorem ref_missing_table_equals_empty_table
    (fields : List (String × Value)) (ctx ctx' : EvalContext) (s : RState)
    (p : String)
    (h1 : hasKey fields "$input" = false)
    (hk : hasKey fields "$ref" = true)
    (hp : lookupD fields "$ref" .undefined = .str p)
    (hnone : ctx.results = none)
    (hempty : ctx'.results = some []) :
    resolveValue (.obj fields) ctx s = (s, .ok .undefined)
    ∧ resolveValue (.obj fields) ctx' s = (s, .ok .undefined) := by
  constructor
  · rw [resolveValue_ref fields ctx s p h1 hk hp]
    simp [resultsValue, hnone, getNestedValue_undefined]
  · rw [resolveValue_ref fields ctx' s p h1 hk hp]
    simp [resultsValue, hempty, getNestedValue_emptyObj]

/-- Witness for `ref_missing_table_equals_empty_table` at `{$ref: "a"}`. -/
theorem ref_missing_table_equals_empty_table_witness :
    resolveValue (.obj [("$ref", .str "a")]) ⟨.obj [], none, none, some fun _ => "t"⟩ sT
      = (sT, .ok .undefined)
    ∧ resolveValue (.obj [("$ref", .str "a")]) ⟨.obj [], some [], none, some fun _ => "t"⟩ sT
      = (sT, .ok .undefined) :=
  ref_missing_table_equals_empty_table [("$ref", .str "a")]
    ⟨.obj [], none, none, some fun _ => "t"⟩
    ⟨.obj [], some [], none, some fun _ => "t"⟩ sT "a"
    (by decide) (by decide) (by simp [lookupD]) rfl rfl

/-- **C3** (counterexample).  The object `{$inc: 1, x: 2}` has two keys,
so by the claim it should resolve as plain structured data (preserving
`x`); the evaluator instead recognizes it as an `$inc` operator and
drops `x`. -/
theorem operator_two_key_object_cex :
    resolveValue (.obj [("$inc", .num 1), ("x", .num 2)]) ctxT sT
      = (sT, .ok (.obj [("$inc", .num 1)]))
    ∧ Value.obj [("$inc", .num 1)] ≠ .obj [("$inc", .num 1), ("x", .num 2)] := by
  constructor
  · simp [resolveValue, hasKey, lookupD]
  · simp

/-- **C3** (amended).  Every operator recognizer of the Value Resolver
uses contains-key (not only-key), in the fixed source order with the
valueref markers taking precedence: an object containing `$inc` (and
none of `$input`/`$ref`/`$now`/`$temp`) is treated as the increment
operator regardless of any other keys, which are dropped; likewise
`$default` yields its payload regardless of other keys; only an object
containing none of the eleven marker keys is resolved as plain
structured data. -/
theorem operator_recognition_contains_key
    (fields : List (String × Value)) (ctx : EvalContext) (s : RState)
    (h1 : hasKey fields "$input" = false)
    (h2 : hasKey fields "$ref" = false)
    (h3 : hasKey fields "$now" = false)
    (h4 : hasKey fields "$temp" = false) :
    (hasKey fields "$inc" = true →
      resolveValue (.obj fields) ctx s
        = (s, .ok (.obj [("$inc", lookupD fields "$inc" .undefined)])))
    ∧ (hasKey fields "$inc" = false → hasKey fields "$dec" = false →
        hasKey fields "$push" = false → hasKey fields "$pull" = false →
        hasKey fields "$addToSet" = false → hasKey fields "$default" = true →
        resolveValue (.obj fields) ctx s
          = (s, .ok (lookupD fields "$default" .undefined)))
    ∧ (hasKey fields "$inc" = false → hasKey fields "$dec" = false →
        hasKey fields "$push" = false → hasKey fields "$pull" = false →
        hasKey fields "$addToSet" = false → hasKey fields "$default" = false →
        hasKey fields "$if" = false →
        resolveValue (.obj fields) ctx s
          = (match resolveFields fields ctx s with
              | (s', .ok rs) => (s', .ok (.obj rs))
              | (s', .error e) => (s', .error e))) := by
  refine ⟨?_, ?_, ?_⟩
  · intro hk
    exact resolveValue_inc fields ctx s h1 h2 h3 h4 hk
  · intro h5 h6 h7 h8 h9 hk
    exact resolveValue_default fields ctx s h1 h2 h3 h4 h5 h6 h7 h8 h9 hk
  · intro h5 h6 h7 h8 h9 h10 h11
    exact resolveValue_plain fields ctx s h1 h2 h3 h4 h5 h6 h7 h8 h9 h10 h11

/-- Witness for `operator_recognition_contains_key` on the two-key object
`{$inc: 5, y: "z"}`: recognized as the increment operator, `y` dropped. -/
theorem operator_recognition_contains_key_witness :
    resolveValue (.obj [("$inc", .num 5), ("y", .str "z")]) ctxT sT
      = (sT, .ok (.obj [("$inc", .num 5)])) := by
  have h := (operator_recognition_contains_key
    [("$inc", .num 5), ("y", .str "z")] ctxT sT
    (by decide) (by decide) (by decide) (by decide)).1 (by decide)
  simpa [lookupD] using h

/-! ## Splitting effect names -/

theorem splitDotAux_no_dot (l acc : List Char) (h : '.' ∉ l) :
    splitDotAux l acc = [String.mk (acc.reverse ++ l)] := by
  induction l generalizing acc with
  | nil => simp [splitDotAux]
  | cons c cs ih =>
      simp only [List.mem_cons, not_or] at h
      simp only [splitDotAux]
      rw [if_neg (fun hc => h.1 hc.symm), ih _ h.2]
      simp

theorem splitDotAux_dot (l rest acc : List Char) (h : '.' ∉ l) :
    splitDotAux (l ++ '.' :: rest) acc
      = String.mk (acc.reverse ++ l) :: splitDotAux rest [] := by
  induction l generalizing acc with
  | nil => simp [splitDotAux]
  | cons c cs ih =>
      simp only [List.mem_cons, not_or] at h
      simp only [List.cons_append, splitDotAux, List.append_eq]
      rw [if_neg (fun hc => h.1 hc.symm), ih _ h.2]
      simp

/-- A tiny plugin registry used by concrete dispatch examples: one plugin
`"a"` owning the single effect name `"b.c"`. -/
def regBC : Registry := fun ns =>
  if ns == "a" then
    some ⟨"a", fun en => if en == "b.c" then some (fun _ _ => .ok .null) else none⟩
  else none

/-- An execution state with no handler calls recorded yet. -/
def esT : ExecState := ⟨sT, []⟩

/-- **C5** (counterexample).  The effect string `"a.b.c"` is split by the
code into namespace `"a"` and effect name `"b"` — not the claimed entire
remainder `"b.c"` — because `split('.', 2)` truncates after the second
segment.  Consequently dispatching `"a.b.c"` against a plugin `"a"` that
registers the handler name `"b.c"` raises the unknown-effect error
instead of invoking it. -/
theorem effect_split_truncates_cex :
    parseEffect "a.b.c" = ("a", "b")
    ∧ (("a", "b") : String × String) ≠ ("a", "b.c")
    ∧ executeOperation regBC ⟨"a.b.c", .undefined, none, .undefined⟩ ctxT esT
      = (esT, .error (.evaluationError "Unknown effect: a.b.c")) := by
  have hpe : parseEffect "a.b.c" = ("a", "b") := by decide
  refine ⟨hpe, by decide, ?_⟩
  simp [executeOperation, executeOperationBody, isUndef, resolveValue,
    hasKey, resolveFields, hpe, regBC, esT]

/-- **C5** (amended).  `executeOperation` splits the effect string on the
separator `'.'` into namespace and effect name as follows: with no
separator, the namespace defaults to `"core"` and the name is the whole
string; otherwise the namespace is the text before the first separator
and the name is the text strictly between the first and the second
separator — anything after a second separator is discarded by the
`split('.', 2)` limit. -/
theorem effect_split_first_two_segments :
    (∀ s : String, hasDot s = false → parseEffect s = ("core", s))
    ∧ (∀ a b : String, '.' ∉ a.data → '.' ∉ b.data →
        parseEffect (a ++ "." ++ b) = (a, b))
    ∧ (∀ a b c : String, '.' ∉ a.data → '.' ∉ b.data →
        parseEffect (a ++ "." ++ b ++ "." ++ c) = (a, b)) := by
  refine ⟨?_, ?_, ?_⟩
  · intro s h
    simp [parseEffect, h]
  · intro a b ha hb
    have hd : (a ++ "." ++ b).data = a.data ++ '.' :: b.data := by
      simp [String.data_append]
    have hdot : hasDot (a ++ "." ++ b) = true := by
      simp [hasDot, hd]
    simp only [parseEffect, hdot, if_true, jsSplitDot2, jsSplitDot, hd]
    rw [splitDotAux_dot _ _ _ ha, splitDotAux_no_dot _ _ hb]
    simp
  · intro a b c ha hb
    have hd : (a ++ "." ++ b ++ "." ++ c).data
        = a.data ++ '.' :: (b.data ++ '.' :: c.data) := by
      simp [String.data_append]
    have hdot : hasDot (a ++ "." ++ b ++ "." ++ c) = true := by
      simp [hasDot, hd]
    simp only [parseEffect, hdot, if_true, jsSplitDot2, jsSplitDot, hd]
    rw [splitDotAux_dot _ _ _ ha, splitDotAux_dot _ _ _ hb]
    simp

/-- Witness for `effect_split_first_two_segments` on `"go"`, `"ns.fx"`
and `"ns.fx.extra"`. -/
theorem effect_split_first_two_segments_witness :
    parseEffect "go" = ("core", "go")
    ∧ parseEffect ("ns" ++ "." ++ "fx") = ("ns", "fx")
    ∧ parseEffect ("ns" ++ "." ++ "fx" ++ "." ++ "extra") = ("ns", "fx") :=
  ⟨effect_split_first_two_segments.1 "go" (by decide),
    effect_split_first_two_segments.2.1 "ns" "fx" (by decide) (by decide),
    effect_split_first_two_segments.2.2 "ns" "fx" "extra" (by decide) (by decide)⟩

/-- **C8** (confirmed).  With the counter freshly reset, successive
resolutions of a `$temp` reference without a caller-supplied generator
yield `"temp_1"` then `"temp_2"` (the module counter pre-increments);
with a generator `ctx.tempId` supplied, its return value is used
verbatim and the counter component of the state is left untouched. -/
theorem temp_id_sequence_and_generator
    (fields : List (String × Value)) (ctx ctxg : EvalContext) (s : RState)
    (g : Nat → String)
    (h1 : hasKey fields "$input" = false)
    (h2 : hasKey fields "$ref" = false)
    (h3 : hasKey fields "$now" = false)
    (hk : hasKey fields "$temp" = true)
    (hnog : ctx.tempId = none)
    (hg : ctxg.tempId = some g) :
    resolveValue (.obj fields) ctx (resetTempIdCounter s)
      = ({ resetTempIdCounter s with counter := 1 }, .ok (.str "temp_1"))
    ∧ resolveValue (.obj fields) ctx { resetTempIdCounter s with counter := 1 }
      = ({ resetTempIdCounter s with counter := 2 }, .ok (.str "temp_2"))
    ∧ resolveValue (.obj fields) ctxg s
      = ({ s with genCalls := s.genCalls + 1 }, .ok (.str (g s.genCalls))) := by
  refine ⟨?_, ?_, ?_⟩
  · rw [resolveValue_temp_counter fields ctx _ h1 h2 h3 hk hnog]
    have hs : ("temp_" ++ toString (0 + 1) : String) = "temp_1" := by decide
    simp [resetTempIdCounter, hs]
  · rw [resolveValue_temp_counter fields ctx _ h1 h2 h3 hk hnog]
    have hs : ("temp_" ++ toString (1 + 1) : String) = "temp_2" := by decide
    simp [resetTempIdCounter, hs]
  · rw [resolveValue_temp_gen fields ctxg s g h1 h2 h3 hk hg]

/-- Witness for `temp_id_sequence_and_generator` at `{$temp: true}` with
the generator returning `"gen_<i>"`. -/
theorem temp_id_sequence_and_generator_witness :
    resolveValue (.obj [("$temp", .bool true)]) ⟨.obj [], some [], none, none⟩
        (resetTempIdCounter sT)
      = ({ resetTempIdCounter sT with counter := 1 }, .ok (.str "temp_1"))
    ∧ resolveValue (.obj [("$temp", .bool true)]) ⟨.obj [], some [], none, none⟩
        { resetTempIdCounter sT with counter := 1 }
      = ({ resetTempIdCounter sT with counter := 2 }, .ok (.str "temp_2"))
    ∧ resolveValue (.obj [("$temp", .bool true)])
        ⟨.obj [], some [], none, some fun i => "gen_" ++ toString i⟩ sT
      = ({ sT with genCalls := sT.genCalls + 1 },
          .ok (.str ((fun i => "gen_" ++ toString i) sT.genCalls))) :=
  temp_id_sequence_and_generator [("$temp", .bool true)]
    ⟨.obj [], some [], none, none⟩
    ⟨.obj [], some [], none, some fun i => "gen_" ++ toString i⟩ sT
    (fun i => "gen_" ++ toString i)
    (by decide) (by decide) (by decide) (by decide) rfl rfl

/-- The effective arguments of an operation: `$with: args = {}`. -/
def argsOf (op : Operation) : Value :=
  if isUndef op.«$with» then Value.obj [] else op.«$with»

/-- **C4** (confirmed).  An Operation whose `$only` guard resolves to a
non-truthy value returns `skipped = true` with `args = {}` and an absent
result; the execution state is unchanged apart from whatever the guard
resolution itself consumed — in particular the handler-invocation log is
untouched, so no effect handler ran; and at the pipeline level the step
leaves the results table exactly as it was, so its `$as` name is not
bound. -/
theorem guard_falsy_skips
    (reg : Registry) (op : Operation) (input results : List (String × Value))
    (opts : ExecOptions) (es : ExecState) (acc : List StepResult)
    (s' : RState) (cv : Value)
    (hg : isUndef op.«$only» = false)
    (hr : resolveValue op.«$only» (mkCtx input opts results) es.rstate
      = (s', .ok cv))
    (hf : isTruthy cv = false) :
    executeOperation reg op (mkCtx input opts results) es
      = ({ es with rstate := s' },
          .ok ⟨op.«$as», op.«$do», .obj [], .undefined, true⟩)
    ∧ execPipeSteps reg input opts [.op op] results es acc
      = ({ es with rstate := s' }, results,
          .ok (acc ++ [.opR ⟨op.«$as», op.«$do», .obj [], .undefined, true⟩])) := by
  have hA : executeOperation reg op (mkCtx input opts results) es
      = ({ es with rstate := s' },
          .ok ⟨op.«$as», op.«$do», .obj [], .undefined, true⟩) := by
    simp [executeOperation, hg, hr, hf]
  refine ⟨hA, ?_⟩
  simp [execPipeSteps, executeStep, hA]

/-- Witness for `guard_falsy_skips`: `$only: false` on a `"a.b.c"`
operation named `"x"`. -/
theorem guard_falsy_skips_witness :
    executeOperation regBC ⟨"a.b.c", .undefined, some "x", .bool false⟩
        (mkCtx [] {} []) esT
      = ({ esT with rstate := sT },
          .ok ⟨some "x", "a.b.c", .obj [], .undefined, true⟩)
    ∧ execPipeSteps regBC [] {} [.op ⟨"a.b.c", .undefined, some "x", .bool false⟩]
        [] esT []
      = ({ esT with rstate := sT }, [],
          .ok ([] ++ [.opR ⟨some "x", "a.b.c", .obj [], .undefined, true⟩])) :=
  guard_falsy_skips regBC ⟨"a.b.c", .undefined, some "x", .bool false⟩
    [] [] {} esT [] sT (.bool false) (by decide)
    (by simp [resolveValue, esT]) (by decide)

/-- **C6** (confirmed).  After argument resolution, dispatch fails with
the unknown-namespace `EvaluationError` when the namespace has no
registered plugin, and with the unknown-effect `EvaluationError` when
the plugin exists but has no handler under the parsed effect name.  In
both cases the handler-invocation log is unchanged (the error is raised
before any handler invocation) and the same error is what the caller of
`execute` receives. -/
theorem unknown_namespace_and_effect_raise
    (reg : Registry) (op : Operation) (input : List (String × Value))
    (opts : ExecOptions) (es : ExecState) (s' : RState) (ra : Value)
    (hg : isUndef op.«$only» = true)
    (ha : resolveValue (argsOf op) (mkCtx input opts []) es.rstate
      = (s', .ok ra)) :
    (reg (parseEffect op.«$do»).1 = none →
      executeOperation reg op (mkCtx input opts []) es
        = ({ es with rstate := s' },
            .error (.evaluationError
              ("Unknown plugin namespace: " ++ (parseEffect op.«$do»).1)))
      ∧ execute reg (.op op) input opts es
        = ({ es with rstate := s' },
            .error (.evaluationError
              ("Unknown plugin namespace: " ++ (parseEffect op.«$do»).1))))
    ∧ (∀ plugin : Plugin, reg (parseEffect op.«$do»).1 = some plugin →
        plugin.effects (parseEffect op.«$do»).2 = none →
        executeOperation reg op (mkCtx input opts []) es
          = ({ es with rstate := s' },
              .error (.evaluationError ("Unknown effect: " ++ op.«$do»)))
        ∧ execute reg (.op op) input opts es
          = ({ es with rstate := s' },
              .error (.evaluationError ("Unknown effect: " ++ op.«$do»)))) := by
  simp only [argsOf] at ha
  constructor
  · intro hns
    have hA : executeOperation reg op (mkCtx input opts []) es
        = ({ es with rstate := s' },
            .error (.evaluationError
              ("Unknown plugin namespace: " ++ (parseEffect op.«$do»).1))) := by
      simp [executeOperation, hg, executeOperationBody, ha, hns]
    exact ⟨hA, by simp [execute, executePipeline, execPipeSteps, executeStep, hA]⟩
  · intro plugin hns heff
    have hA : executeOperation reg op (mkCtx input opts []) es
        = ({ es with rstate := s' },
            .error (.evaluationError ("Unknown effect: " ++ op.«$do»))) := by
      simp [executeOperation, hg, executeOperationBody, ha, hns, heff]
    exact ⟨hA, by simp [execute, executePipeline, execPipeSteps, executeStep, hA]⟩

/-! ## The branch loop of executeConditional -/

theorem execBranchSteps_nil (reg : Registry) (ctx : EvalContext)
    (results : List (String × Value)) (es : ExecState)
    (acc : List OperationResult) (last : Value) :
    execBranchSteps reg [] ctx results es acc last
      = (es, results, .ok (acc, last)) := by
  rw [execBranchSteps]

theorem execBranchSteps_cons_op (reg : Registry) (o : Operation)
    (rest : List PipelineStep) (ctx : EvalContext)
    (results : List (String × Value)) (es : ExecState)
    (acc : List OperationResult) (last : Value) :
    execBranchSteps reg (.op o :: rest) ctx results es acc last
      = (match executeOperation reg o { ctx with results := some results } es with
          | (es', .error err) => (es', results, .error err)
          | (es', .ok orr) =>
              execBranchSteps reg rest ctx
                (if orr.skipped then results else bindName results orr.name orr.result)
                es' (acc ++ [orr]) (if orr.skipped then last else orr.result)) := by
  rw [execBranchSteps]

theorem execBranchSteps_cons_cond (reg : Registry) (sc : Conditional)
    (rest : List PipelineStep) (ctx : EvalContext)
    (results : List (String × Value)) (es : ExecState)
    (acc : List OperationResult) (last : Value) :
    execBranchSteps reg (.cond sc :: rest) ctx results es acc last
      = (match executeConditional reg sc ctx results es with
          | (es', results', .error err) => (es', results', .error err)
          | (es', results', .ok cr) =>
              execBranchSteps reg rest ctx (bindName results' cr.name cr.result)
                es' (acc ++ cr.operations) cr.result) := by
  rw [execBranchSteps]

/-- The branch loop is compositional: running `xs ++ ys` is running `xs`
and continuing with `ys` from the intermediate state (errors abort). -/
theorem execBranchSteps_append (reg : Registry) (xs ys : List PipelineStep)
    (ctx : EvalContext) (results : List (String × Value)) (es : ExecState)
    (acc : List OperationResult) (last : Value) :
    execBranchSteps reg (xs ++ ys) ctx results es acc last
      = (match execBranchSteps reg xs ctx results es acc last with
          | (es', results', .error e) => (es', results', .error e)
          | (es', results', .ok (acc', last')) =>
              execBranchSteps reg ys ctx results' es' acc' last') := by
  induction xs generalizing results es acc last with
  | nil => simp [execBranchSteps_nil]
  | cons x rest ih =>
      cases x with
      | op o =>
          rw [List.cons_append, execBranchSteps_cons_op, execBranchSteps_cons_op]
          cases hE : executeOperation reg o { ctx with results := some results } es with
          | mk es' r =>
              cases r with
              | error err => simp
              | ok orr => simp [ih]
      | cond sc =>
          rw [List.cons_append, execBranchSteps_cons_cond, execBranchSteps_cons_cond]
          cases hE : executeConditional reg sc ctx results es with
          | mk es' rr =>
              obtain ⟨results', r⟩ := rr
              cases r with
              | error err => simp
              | ok cr => simp [ih]

/-- **C7** (confirmed).  A Conditional's own result is the result of the
last non-skipped step of the executed branch: (1) with the chosen branch
absent (condition falsy, no `$else`) the result is absent and no
operations are executed; (2)/(3) with a branch chosen (then or else) the
Conditional returns exactly the branch loop's running `lastResult`;
(4) a trailing guard-skipped operation leaves the loop's result (and the
results table) unchanged; (5) a trailing non-skipped operation makes the
loop's result its own; (6) a trailing nested Conditional makes the
loop's result its own. -/
theorem conditional_result_last_non_skipped (reg : Registry) (ctx : EvalContext) :
    (∀ (w : Value) (t : Branch) (a : Option String)
        (results : List (String × Value)) (es : ExecState) (s' : RState) (cv : Value),
      resolveValue w { ctx with results := some results } es.rstate = (s', .ok cv) →
      isTruthy cv = false →
      executeConditional reg (.mk w t none a) ctx results es
        = ({ es with rstate := s' }, results, .ok ⟨a, "else", [], .undefined⟩))
    ∧ (∀ (w : Value) (t : Branch) (e : Option Branch) (a : Option String)
          (results : List (String × Value)) (es : ExecState) (s' : RState)
          (cv : Value) (es'' : ExecState) (results'' : List (String × Value))
          (ops : List OperationResult) (last : Value),
        resolveValue w { ctx with results := some results } es.rstate = (s', .ok cv) →
        isTruthy cv = true →
        execBranchSteps reg (normalizeBranch t) ctx results
            { es with rstate := s' } [] .undefined
          = (es'', results'', .ok (ops, last)) →
        executeConditional reg (.mk w t e a) ctx results es
          = (es'', results'', .ok ⟨a, "then", ops, last⟩))
    ∧ (∀ (w : Value) (t b : Branch) (a : Option String)
          (results : List (String × Value)) (es : ExecState) (s' : RState)
          (cv : Value) (es'' : ExecState) (results'' : List (String × Value))
          (ops : List OperationResult) (last : Value),
        resolveValue w { ctx with results := some results } es.rstate = (s', .ok cv) →
        isTruthy cv = false →
        execBranchSteps reg (normalizeBranch b) ctx results
            { es with rstate := s' } [] .undefined
          = (es'', results'', .ok (ops, last)) →
        executeConditional reg (.mk w t (some b) a) ctx results es
          = (es'', results'', .ok ⟨a, "else", ops, last⟩))
    ∧ (∀ (xs : List PipelineStep) (o : Operation)
          (results : List (String × Value)) (es : ExecState)
          (acc acc1 : List OperationResult) (last last1 : Value)
          (es1 es2 : ExecState) (res1 : List (String × Value)) (orr : OperationResult),
        execBranchSteps reg xs ctx results es acc last = (es1, res1, .ok (acc1, last1)) →
        executeOperation reg o { ctx with results := some res1 } es1 = (es2, .ok orr) →
        orr.skipped = true →
        execBranchSteps reg (xs ++ [.op o]) ctx results es acc last
          = (es2, res1, .ok (acc1 ++ [orr], last1)))
    ∧ (∀ (xs : List PipelineStep) (o : Operation)
          (results : List (String × Value)) (es : ExecState)
          (acc acc1 : List OperationResult) (last last1 : Value)
          (es1 es2 : ExecState) (res1 : List (String × Value)) (orr : OperationResult),
        execBranchSteps reg xs ctx results es acc last = (es1, res1, .ok (acc1, last1)) →
        executeOperation reg o { ctx with results := some res1 } es1 = (es2, .ok orr) →
        orr.skipped = false →
        execBranchSteps reg (xs ++ [.op o]) ctx results es acc last
          = (es2, bindName res1 orr.name orr.result,
              .ok (acc1 ++ [orr], orr.result)))
    ∧ (∀ (xs : List PipelineStep) (sc : Conditional)
          (results : List (String × Value)) (es : ExecState)
          (acc acc1 : List OperationResult) (last last1 : Value)
          (es1 es2 : ExecState) (res1 res2 : List (String × Value))
          (cr : ConditionalResult),
        execBranchSteps reg xs ctx results es acc last = (es1, res1, .ok (acc1, last1)) →
        executeConditional reg sc ctx res1 es1 = (es2, res2, .ok cr) →
        execBranchSteps reg (xs ++ [.cond sc]) ctx results es acc last
          = (es2, bindName res2 cr.name cr.result,
              .ok (acc1 ++ cr.operations, cr.result))) := by
  refine ⟨?_, ?_, ?_, ?_, ?_, ?_⟩
  · intro w t a results es s' cv hr hf
    rw [executeConditional]
    simp [hr, hf]
  · intro w t e a results es s' cv es'' results'' ops last hr ht hloop
    rw [executeConditional]
    simp [hr, ht, executeBranch, hloop]
  · intro w t b a results es s' cv es'' results'' ops last hr hf hloop
    rw [executeConditional]
    simp [hr, hf, executeBranch, hloop]
  · intro xs o results es acc acc1 last last1 es1 es2 res1 orr hpre hop hskip
    rw [execBranchSteps_append]
    simp [hpre, execBranchSteps_cons_op, hop, hskip, execBranchSteps_nil]
  · intro xs o results es acc acc1 last last1 es1 es2 res1 orr hpre hop hskip
    rw [execBranchSteps_append]
    simp [hpre, execBranchSteps_cons_op, hop, hskip, execBranchSteps_nil]
  · intro xs sc results es acc acc1 last last1 es1 es2 res1 res2 cr hpre hcond
    rw [execBranchSteps_append]
    simp [hpre, execBranchSteps_cons_cond, hcond, execBranchSteps_nil]

/-- A registry with the single plugin `"core"` owning the effect `"mk"`
whose handler returns the number `7`. -/
def regMk : Registry := fun ns =>
  if ns == "core" then
    some ⟨"core", fun en => if en == "mk" then some (fun _ _ => .ok (.num 7)) else none⟩
  else none

/-- Witness for `conditional_result_last_non_skipped`: a falsy condition
with no `$else` yields an absent result with no operations, and a branch
`[op “mk” as r1; op “mk” as r2 guarded false]` reports the first
operation's result `7` — the trailing skipped step did not update it. -/
theorem conditional_result_last_non_skipped_witness :
    executeConditional regMk
        (.mk (.bool false) (.many []) none (some "c")) ctxT [] esT
      = ({ esT with rstate := sT }, [], .ok ⟨some "c", "else", [], .undefined⟩)
    ∧ execBranchSteps regMk
        ([.op ⟨"mk", .undefined, some "r1", .undefined⟩]
          ++ [.op ⟨"mk", .undefined, some "r2", .bool false⟩])
        ctxT [] esT [] .undefined
      = (⟨sT, [("core", "mk", .obj [])]⟩, [("r1", .num 7)],
          .ok ([⟨some "r1", "mk", .obj [], .num 7, false⟩,
                ⟨some "r2", "mk", .obj [], .undefined, true⟩], .num 7)) := by
  have hp : parseEffect "mk" = ("core", "mk") := by decide
  have h1 : execBranchSteps regMk [.op ⟨"mk", .undefined, some "r1", .undefined⟩]
      ctxT [] esT [] .undefined
      = (⟨sT, [("core", "mk", .obj [])]⟩, [("r1", .num 7)],
          .ok ([⟨some "r1", "mk", .obj [], .num 7, false⟩], .num 7)) := by
    simp [execBranchSteps, executeOperation, executeOperationBody, isUndef,
      resolveValue, hasKey, resolveFields, hp, regMk, bindName, setKey, esT, ctxT]
  have h2 : executeOperation regMk ⟨"mk", .undefined, some "r2", .bool false⟩
      { ctxT with results := some [("r1", .num 7)] } ⟨sT, [("core", "mk", .obj [])]⟩
      = (⟨sT, [("core", "mk", .obj [])]⟩,
          .ok ⟨some "r2", "mk", .obj [], .undefined, true⟩) := by
    simp [executeOperation, isUndef, resolveValue, isTruthy, ctxT]
  constructor
  · exact (conditional_result_last_non_skipped regMk ctxT).1
      (.bool false) (.many []) (some "c") [] esT sT
      (.bool false) (by simp [resolveValue, esT]) (by decide)
  · exact (conditional_result_last_non_skipped regMk ctxT).2.2.2.1
      [.op ⟨"mk", .undefined, some "r1", .undefined⟩] ⟨"mk", .undefined, some "r2", .bool false⟩
      [] esT [] [⟨some "r1", "mk", .obj [], .num 7, false⟩] .undefined (.num 7)
      ⟨sT, [("core", "mk", .obj [])]⟩ ⟨sT, [("core", "mk", .obj [])]⟩
      [("r1", .num 7)] ⟨some "r2", "mk", .obj [], .undefined, true⟩
      h1 h2 (by decide)

/-- Witness for `unknown_namespace_and_effect_raise`: dispatching
`"nope.go"` with no plugin `"nope"` registered, and `"a.zz"` where
plugin `"a"` exists but has no effect `"zz"`. -/
theorem unknown_namespace_and_effect_raise_witness :
    executeOperation regBC ⟨"nope.go", .undefined, none, .undefined⟩
        (mkCtx [] {} []) esT
      = ({ esT with rstate := sT },
          .error (.evaluationError
            ("Unknown plugin namespace: " ++ (parseEffect "nope.go").1)))
    ∧ execute regBC (.op ⟨"a.zz", .undefined, none, .undefined⟩) [] {} esT
      = ({ esT with rstate := sT },
          .error (.evaluationError ("Unknown effect: " ++ "a.zz"))) := by
  have h1 := (unknown_namespace_and_effect_raise regBC
    ⟨"nope.go", .undefined, none, .undefined⟩ [] {} esT sT (.obj [])
    (by decide)
    (by simp [argsOf, isUndef, resolveValue, hasKey, resolveFields, esT])).1
    (by simp [regBC, parseEffect, hasDot, jsSplitDot2, jsSplitDot, splitDotAux])
  have h2 := (unknown_namespace_and_effect_raise regBC
    ⟨"a.zz", .undefined, none, .undefined⟩ [] {} esT sT (.obj [])
    (by decide)
    (by simp [argsOf, isUndef, resolveValue, hasKey, resolveFields, esT])).2
    ⟨"a", fun en => if en == "b.c" then some (fun _ _ => .ok .null) else none⟩
    (by simp [regBC, parseEffect, hasDot, jsSplitDot2, jsSplitDot, splitDotAux])
    (by simp [parseEffect, hasDot, jsSplitDot2, jsSplitDot, splitDotAux])
  exact ⟨h1.1, h2.2⟩

/-! ## Pipeline-level binding -/

theorem hasKey_setKey (t : List (String × Value)) (n : String) (v : Value) :
    hasKey (setKey t n v) n = true := by
  induction t with
  | nil => simp [setKey, hasKey]
  | cons kv rest ih =>
      obtain ⟨k, w⟩ := kv
      simp only [setKey]
      split
      · simp [hasKey]
      · simp [hasKey, ih]

theorem lookupD_setKey (t : List (String × Value)) (n : String) (v d : Value) :
    lookupD (setKey t n v) n d = v := by
  induction t with
  | nil => simp [setKey, lookupD]
  | cons kv rest ih =>
      obtain ⟨k, w⟩ := kv
      simp only [setKey]
      split
      · simp [lookupD]
      · rename_i hk
        simp [lookupD, hk, ih]

theorem execPipeSteps_cons_cond (reg : Registry) (input : List (String × Value))
    (opts : ExecOptions) (c : Conditional) (rest : List PipelineStep)
    (results : List (String × Value)) (es : ExecState) (acc : List StepResult) :
    execPipeSteps reg input opts (.cond c :: rest) results es acc
      = (match executeConditional reg c (mkCtx input opts results) results es with
          | (es', results', .error e) => (es', results', .error e)
          | (es', results', .ok cr) =>
              execPipeSteps reg input opts rest
                (bindName results' cr.name cr.result) es' (acc ++ [.condR cr])) := by
  rw [execPipeSteps]
  simp only [executeStep]
  cases hE : executeConditional reg c (mkCtx input opts results) results es with
  | mk es' rr =>
      obtain ⟨results', r⟩ := rr
      cases r <;> simp

theorem execPipeSteps_cons_op (reg : Registry) (input : List (String × Value))
    (opts : ExecOptions) (o : Operation) (rest : List PipelineStep)
    (results : List (String × Value)) (es : ExecState) (acc : List StepResult) :
    execPipeSteps reg input opts (.op o :: rest) results es acc
      = (match executeOperation reg o (mkCtx input opts results) es with
          | (es', .error e) => (es', results, .error e)
          | (es', .ok orr) =>
              execPipeSteps reg input opts rest
                (if orr.skipped then results else bindName results orr.name orr.result)
                es' (acc ++ [.opR orr])) := by
  rw [execPipeSteps]
  simp only [executeStep]
  cases hE : executeOperation reg o (mkCtx input opts results) es with
  | mk es' r =>
      cases r <;> simp

/-- **C10** (counterexample).  A Conditional carrying `$as: ""` completes
its pipeline step, yet the name is **not** bound: the pipeline binding is
guarded by JS truthiness of the name (`else if (stepResult.name)`), and
the empty string is falsy — the final results table is empty. -/
theorem conditional_empty_name_not_bound_cex :
    executePipeline (fun _ => none)
        ⟨[.cond (.mk (.bool true) (.many []) none (some ""))], none⟩ [] {} esT
      = ({ esT with rstate := sT },
          .ok ⟨[.condR ⟨some "", "then", [], .undefined⟩], .obj []⟩)
    ∧ hasKey [] "" = false := by
  constructor
  · simp [executePipeline, execPipeSteps, executeStep, executeConditional,
      executeBranch, execBranchSteps, resolveValue, isTruthy, normalizeBranch,
      bindName, mkCtx, esT]
  · decide

/-- **C10** (amended).  At the pipeline level, a Conditional carrying a
**non-empty** `$as` name always has that name bound after its step
completes — when its condition selected an absent branch the name is
bound to the absent value (present key, `undefined` value) — whereas an
Operation skipped by its guard leaves the results table completely
unchanged.  (An empty-string `$as` is falsy in the source's binding
check and is never bound.) -/
theorem pipeline_binding_conditional_vs_skipped_op (reg : Registry)
    (input : List (String × Value)) (opts : ExecOptions) :
    (∀ (rest : List PipelineStep) (results : List (String × Value))
        (es es' : ExecState) (acc : List StepResult) (c : Conditional)
        (res' : List (String × Value)) (cr : ConditionalResult) (n : String),
      executeConditional reg c (mkCtx input opts results) results es
        = (es', res', .ok cr) →
      cr.name = some n → n ≠ "" →
      execPipeSteps reg input opts (.cond c :: rest) results es acc
        = execPipeSteps reg input opts rest (setKey res' n cr.result) es'
            (acc ++ [.condR cr])
      ∧ hasKey (setKey res' n cr.result) n = true
      ∧ lookupD (setKey res' n cr.result) n .undefined = cr.result)
    ∧ (∀ (rest : List PipelineStep) (results : List (String × Value))
          (es : ExecState) (acc : List StepResult) (w : Value) (t : Branch)
          (n : String) (s' : RState) (cv : Value),
        n ≠ "" →
        resolveValue w (mkCtx input opts results) es.rstate = (s', .ok cv) →
        isTruthy cv = false →
        execPipeSteps reg input opts
            (.cond (.mk w t none (some n)) :: rest) results es acc
          = execPipeSteps reg input opts rest (setKey results n .undefined)
              { es with rstate := s' }
              (acc ++ [.condR ⟨some n, "else", [], .undefined⟩])
        ∧ lookupD (setKey results n .undefined) n (.num 99) = .undefined)
    ∧ (∀ (rest : List PipelineStep) (results : List (String × Value))
          (es es' : ExecState) (acc : List StepResult) (o : Operation)
          (orr : OperationResult),
        executeOperation reg o (mkCtx input opts results) es = (es', .ok orr) →
        orr.skipped = true →
        execPipeSteps reg input opts (.op o :: rest) results es acc
          = execPipeSteps reg input opts rest results es' (acc ++ [.opR orr])) := by
  refine ⟨?_, ?_, ?_⟩
  · intro rest results es es' acc c res' cr n hc hn hne
    rw [execPipeSteps_cons_cond]
    simp [hc, bindName, hn, hne, hasKey_setKey, lookupD_setKey]
  · intro rest results es acc w t n s' cv hne hr hf
    have hc : executeConditional reg (.mk w t none (some n))
        (mkCtx input opts results) results es
        = ({ es with rstate := s' }, results,
            .ok ⟨some n, "else", [], .undefined⟩) := by
      rw [executeConditional]
      have hr' : resolveValue w
          { mkCtx input opts results with results := some results } es.rstate
          = (s', .ok cv) := hr
      simp [hr', hf]
    rw [execPipeSteps_cons_cond]
    simp [hc, bindName, hne, lookupD_setKey]
  · intro rest results es es' acc o orr hop hskip
    rw [execPipeSteps_cons_op]
    simp [hop, hskip]

/-- Witness for `pipeline_binding_conditional_vs_skipped_op`: an
absent-branch conditional named `"c"` binds `"c"` to `undefined`
(present key, absent value), while the guard-skipped operation leaves
the empty results table exactly empty. -/
theorem pipeline_binding_conditional_vs_skipped_op_witness :
    execPipeSteps regMk [] {}
        [.cond (.mk (.bool false) (.many []) none (some "c"))] [] esT []
      = execPipeSteps regMk [] {} [] (setKey [] "c" .undefined)
          { esT with rstate := sT }
          ([] ++ [.condR ⟨some "c", "else", [], .undefined⟩])
    ∧ lookupD (setKey [] "c" .undefined) "c" (.num 99) = .undefined
    ∧ execPipeSteps regMk [] {}
        [.op ⟨"mk", .undefined, some "r2", .bool false⟩] [] esT []
      = execPipeSteps regMk [] {} [] []
          { esT with rstate := sT }
          ([] ++ [.opR ⟨some "r2", "mk", .obj [], .undefined, true⟩]) := by
  have h2 := (pipeline_binding_conditional_vs_skipped_op regMk [] {}).2.1
    [] [] esT [] (.bool false) (.many [])
    "c" sT (.bool false) (by decide) (by simp [resolveValue, esT]) (by decide)
  have h3 := (pipeline_binding_conditional_vs_skipped_op regMk [] {}).2.2
    [] [] esT { esT with rstate := sT } []
    ⟨"mk", .undefined, some "r2", .bool false⟩ ⟨some "r2", "mk", .obj [], .undefined, true⟩
    (by simp [executeOperation, isUndef, resolveValue, isTruthy, esT, mkCtx])
    (by decide)
  exact ⟨h2.1, h2.2, h3⟩



mutual

def pureTree : Value → Bool
  | .obj fields => !hasKey fields "$now" && !hasKey fields "$temp" && pureFields fields
  | .arr xs => pureList xs
  | _ => true
termination_by v => sizeOf v
decreasing_by
  all_goals simp_wf

def pureList : List Value → Bool
  | [] => true
  | x :: r => pureTree x && pureList r
termination_by xs => sizeOf xs
decreasing_by
  all_goals simp_wf
  all_goals omega

def pureFields : List (String × Value) → Bool
  | [] => true
  | (_, v) :: r => pureTree v && pureFields r
termination_by fs => sizeOf fs
decreasing_by
  all_goals simp_wf
  all_goals omega

end

theorem pureTree_obj (fs : List (String × Value)) :
    pureTree (.obj fs)
      = (!hasKey fs "$now" && !hasKey fs "$temp" && pureFields fs) := by
  rw [pureTree]

theorem pureTree_arr (xs : List Value) : pureTree (.arr xs) = pureList xs := by
  rw [pureTree]

theorem pureTree_undefined : pureTree .undefined = true := by simp [pureTree]

theorem pureList_cons (x : Value) (r : List Value) :
    pureList (x :: r) = (pureTree x && pureList r) := by
  rw [pureList]

theorem pureFields_cons (k : String) (v : Value) (r : List (String × Value)) :
    pureFields ((k, v) :: r) = (pureTree v && pureFields r) := by
  rw [pureFields]

theorem pureFields_lookupD (fs : List (String × Value)) (k : String) (d : Value)
    (hf : pureFields fs = true) (hd : pureTree d = true) :
    pureTree (lookupD fs k d) = true := by
  induction fs with
  | nil => simpa [lookupD] using hd
  | cons kv rest ih =>
      obtain ⟨k', v⟩ := kv
      rw [pureFields_cons] at hf
      simp only [Bool.and_eq_true] at hf
      simp only [lookupD]
      split
      · exact hf.1
      · exact ih hf.2

theorem pureList_getD (xs : List Value) (i : Nat)
    (hx : pureList xs = true) :
    pureTree (xs.getD i .undefined) = true := by
  induction xs generalizing i with
  | nil => simp [List.getD, pureTree_undefined]
  | cons x rest ih =>
      rw [pureList_cons] at hx
      simp only [Bool.and_eq_true] at hx
      cases i with
      | zero => simpa [List.getD_cons_zero] using hx.1
      | succ j => simpa [List.getD_cons_succ] using ih j hx.2

theorem pureTree_propAccess (v : Value) (k : String)
    (hv : pureTree v = true) :
    pureTree (propAccess v k) = true := by
  cases v with
  | obj fs =>
      rw [pureTree_obj] at hv
      simp only [Bool.and_eq_true] at hv
      simpa [propAccess] using pureFields_lookupD fs k .undefined hv.2 pureTree_undefined
  | arr xs =>
      rw [pureTree_arr] at hv
      simp only [propAccess]
      split
      · split
        · exact pureList_getD xs _ hv
        · exact pureTree_undefined
      · exact pureTree_undefined
  | null => simpa [propAccess] using pureTree_undefined
  | undefined => simpa [propAccess] using pureTree_undefined
  | bool b => simpa [propAccess] using pureTree_undefined
  | num n => simpa [propAccess] using pureTree_undefined
  | str t => simpa [propAccess] using pureTree_undefined
  | date n => simpa [propAccess] using pureTree_undefined



/-- The state-independent outcome of an `$input` reference. -/
def inputRefOut (fields : List (String × Value)) (ctx : EvalContext) :
    Except EvalError Value :=
  match lookupD fields "$input" .undefined with
  | .str p => .ok (getNestedValue ctx.input p)
  | _ => .error (.typeError "path.split is not a function")

/-- The state-independent outcome of a `$ref` reference. -/
def refRefOut (fields : List (String × Value)) (ctx : EvalContext) :
    Except EvalError Value :=
  match lookupD fields "$ref" .undefined with
  | .str p => .ok (getNestedValue (resultsValue ctx) p)
  | _ => .error (.typeError "path.split is not a function")

theorem resolveValue_input_state (fields : List (String × Value))
    (ctx : EvalContext) (hk : hasKey fields "$input" = true) (s : RState) :
    resolveValue (.obj fields) ctx s = (s, inputRefOut fields ctx) := by
  rw [resolveValue]
  simp only [hk, if_true]
  cases hlp : lookupD fields "$input" .undefined <;> simp [inputRefOut, hlp]

theorem resolveValue_ref_state (fields : List (String × Value))
    (ctx : EvalContext) (h1 : hasKey fields "$input" = false)
    (hk : hasKey fields "$ref" = true) (s : RState) :
    resolveValue (.obj fields) ctx s = (s, refRefOut fields ctx) := by
  rw [resolveValue]
  simp only [h1, hk, if_true, Bool.false_eq_true, if_false]
  cases hlp : lookupD fields "$ref" .undefined <;> simp [refRefOut, hlp]



theorem resolveValue_pure_det :
    ∀ (n : Nat) (v : Value) (ctx : EvalContext) (s1 s2 : RState),
      sizeOf v ≤ n → pureTree v = true →
      resolveValue v ctx s1 = (s1, (resolveValue v ctx s2).2) := by
  intro n
  induction n with
  | zero =>
      intro v ctx s1 s2 hsz _
      exact absurd hsz (by have := one_le_sizeOf_value v; omega)
  | succ n ih =>
      intro v ctx s1 s2 hsz hpure
      cases v with
      | null => simp [resolveValue_null]
      | undefined => simp [resolveValue_undefined]
      | bool b => simp [resolveValue_bool]
      | num m => simp [resolveValue_num]
      | str t => simp [resolveValue_str]
      | date m => simp [resolveValue_date]
      | arr xs =>
          rw [pureTree_arr] at hpure
          have hsx : sizeOf xs ≤ n := by
            simp only [Value.arr.sizeOf_spec] at hsz
            omega
          have hlist : ∀ (ys : List Value) (t1 t2 : RState), sizeOf ys ≤ n →
              pureList ys = true →
              resolveList ys ctx t1 = (t1, (resolveList ys ctx t2).2) := by
            intro ys
            induction ys with
            | nil => intro t1 t2 _ _; simp [resolveList_nil]
            | cons y rest ihl =>
                intro t1 t2 hs hp
                rw [pureList_cons] at hp
                simp only [Bool.and_eq_true] at hp
                have hsy : sizeOf y ≤ n := by
                  simp only [List.cons.sizeOf_spec] at hs; omega
                have hsr : sizeOf rest ≤ n := by
                  simp only [List.cons.sizeOf_spec] at hs; omega
                rw [resolveList_cons, resolveList_cons,
                  ih y ctx t1 t2 hsy hp.1]
                cases hX : resolveValue y ctx t2 with
                | mk t2' r =>
                    cases r with
                    | error e => simp
                    | ok rv =>
                        simp only []
                        rw [ihl t1 t2' hsr hp.2]
                        cases hY : resolveList rest ctx t2' with
                        | mk t2'' rr => cases rr <;> simp
          rw [resolveValue_arr, resolveValue_arr, hlist xs s1 s2 hsx hpure]
          cases hX : resolveList xs ctx s2 with
          | mk s2' r => cases r <;> simp
      | obj fields =>
          rw [pureTree_obj] at hpure
          simp only [Bool.and_eq_true, Bool.not_eq_true'] at hpure
          obtain ⟨⟨hnow, htemp⟩, hpf⟩ := hpure
          have hszf : sizeOf fields ≤ n := by
            simp only [Value.obj.sizeOf_spec] at hsz
            omega
          cases hin : hasKey fields "$input" with
          | true =>
              rw [resolveValue_input_state fields ctx hin s1,
                resolveValue_input_state fields ctx hin s2]
          | false =>
          cases href : hasKey fields "$ref" with
          | true =>
              rw [resolveValue_ref_state fields ctx hin href s1,
                resolveValue_ref_state fields ctx hin href s2]
          | false =>
          cases hinc : hasKey fields "$inc" with
          | true =>
              rw [resolveValue_inc fields ctx s1 hin href hnow htemp hinc,
                resolveValue_inc fields ctx s2 hin href hnow htemp hinc]
          | false =>
          cases hdec : hasKey fields "$dec" with
          | true =>
              rw [resolveValue_dec fields ctx s1 hin href hnow htemp hinc hdec,
                resolveValue_dec fields ctx s2 hin href hnow htemp hinc hdec]
          | false =>
          cases hpush : hasKey fields "$push" with
          | true =>
              have hw : pureTree (lookupD fields "$push" .undefined) = true :=
                pureFields_lookupD fields "$push" .undefined hpf pureTree_undefined
              have hws : sizeOf (lookupD fields "$push" .undefined) ≤ n := by
                have := lookupD_dflt_sizeOf_le fields "$push"
                omega
              rw [resolveValue_push fields ctx s1 hin href hnow htemp hinc hdec hpush,
                resolveValue_push fields ctx s2 hin href hnow htemp hinc hdec hpush,
                ih _ ctx s1 s2 hws hw]
              cases hX : resolveValue (lookupD fields "$push" .undefined) ctx s2 with
              | mk s2' r => cases r <;> simp
          | false =>
          cases hpull : hasKey fields "$pull" with
          | true =>
              have hw : pureTree (lookupD fields "$pull" .undefined) = true :=
                pureFields_lookupD fields "$pull" .undefined hpf pureTree_undefined
              have hws : sizeOf (lookupD fields "$pull" .undefined) ≤ n := by
                have := lookupD_dflt_sizeOf_le fields "$pull"
                omega
              rw [resolveValue_pull fields ctx s1 hin href hnow htemp hinc hdec
                  hpush hpull,
                resolveValue_pull fields ctx s2 hin href hnow htemp hinc hdec
                  hpush hpull,
                ih _ ctx s1 s2 hws hw]
              cases hX : resolveValue (lookupD fields "$pull" .undefined) ctx s2 with
              | mk s2' r => cases r <;> simp
          | false =>
          cases hats : hasKey fields "$addToSet" with
          | true =>
              have hw : pureTree (lookupD fields "$addToSet" .undefined) = true :=
                pureFields_lookupD fields "$addToSet" .undefined hpf pureTree_undefined
              have hws : sizeOf (lookupD fields "$addToSet" .undefined) ≤ n := by
                have := lookupD_dflt_sizeOf_le fields "$addToSet"
                omega
              rw [resolveValue_addToSet fields ctx s1 hin href hnow htemp hinc hdec
                  hpush hpull hats,
                resolveValue_addToSet fields ctx s2 hin href hnow htemp hinc hdec
                  hpush hpull hats,
                ih _ ctx s1 s2 hws hw]
              cases hX : resolveValue (lookupD fields "$addToSet" .undefined) ctx s2 with
              | mk s2' r => cases r <;> simp
          | false =>
          cases hdef : hasKey fields "$default" with
          | true =>
              rw [resolveValue_default fields ctx s1 hin href hnow htemp hinc hdec
                  hpush hpull hats hdef,
                resolveValue_default fields ctx s2 hin href hnow htemp hinc hdec
                  hpush hpull hats hdef]
          | false =>
          cases hif : hasKey fields "$if" with
          | true =>
              cases hnn : isNullish (lookupD fields "$if" .undefined) with
              | true =>
                  have hb : ∀ s, resolveValue (.obj fields) ctx s
                      = (s, .error (.typeError
                          "cannot read properties of null or undefined")) := by
                    intro s
                    rw [resolveValue]
                    simp [hin, href, hnow, htemp, hinc, hdec, hpush, hpull,
                      hats, hdef, hif, hnn]
                  rw [hb s1, hb s2]
              | false =>
                  have hifv : pureTree (lookupD fields "$if" .undefined) = true :=
                    pureFields_lookupD fields "$if" .undefined hpf pureTree_undefined
                  have hifs : sizeOf (lookupD fields "$if" .undefined) ≤ n := by
                    have := lookupD_dflt_sizeOf_le fields "$if"
                    omega
                  have hcondP : pureTree
                      (propAccess (lookupD fields "$if" .undefined) "cond") = true :=
                    pureTree_propAccess _ _ hifv
                  have hcondS : sizeOf
                      (propAccess (lookupD fields "$if" .undefined) "cond") ≤ n := by
                    have := propAccess_sizeOf_le (lookupD fields "$if" .undefined) "cond"
                    omega
                  rw [resolveValue_if fields ctx s1 hin href hnow htemp hinc hdec
                      hpush hpull hats hdef hif hnn,
                    resolveValue_if fields ctx s2 hin href hnow htemp hinc hdec
                      hpush hpull hats hdef hif hnn,
                    ih _ ctx s1 s2 hcondS hcondP]
                  cases hX : resolveValue
                      (propAccess (lookupD fields "$if" .undefined) "cond") ctx s2 with
                  | mk s2' r =>
                      cases r with
                      | error e => simp
                      | ok cv =>
                          simp only []
                          cases hcv : isTruthy cv with
                          | true =>
                              simp only [hcv, if_true]
                              have hthP : pureTree
                                  (propAccess (lookupD fields "$if" .undefined) "then")
                                  = true := pureTree_propAccess _ _ hifv
                              have hthS : sizeOf
                                  (propAccess (lookupD fields "$if" .undefined) "then")
                                  ≤ n := by
                                have := propAccess_sizeOf_le
                                  (lookupD fields "$if" .undefined) "then"
                                omega
                              rw [ih _ ctx s1 s2' hthS hthP]
                          | false =>
                              simp only [hcv, Bool.false_eq_true, if_false]
                              cases hel : isUndef
                                  (propAccess (lookupD fields "$if" .undefined) "else") with
                              | true => simp [hel]
                              | false =>
                                  simp only [hel, Bool.false_eq_true, if_false]
                                  have helP : pureTree
                                      (propAccess (lookupD fields "$if" .undefined) "else")
                                      = true := pureTree_propAccess _ _ hifv
                                  have helS : sizeOf
                                      (propAccess (lookupD fields "$if" .undefined) "else")
                                      ≤ n := by
                                    have := propAccess_sizeOf_le
                                      (lookupD fields "$if" .undefined) "else"
                                    omega
                                  rw [ih _ ctx s1 s2' helS helP]
          | false =>
          have hffields : ∀ (fs : List (String × Value)) (t1 t2 : RState),
              sizeOf fs ≤ n → pureFields fs = true →
              resolveFields fs ctx t1 = (t1, (resolveFields fs ctx t2).2) := by
            intro fs
            induction fs with
            | nil => intro t1 t2 _ _; simp [resolveFields_nil]
            | cons kv rest ihf =>
                obtain ⟨k, y⟩ := kv
                intro t1 t2 hs hp
                rw [pureFields_cons] at hp
                simp only [Bool.and_eq_true] at hp
                have hsy : sizeOf y ≤ n := by
                  simp only [List.cons.sizeOf_spec, Prod.mk.sizeOf_spec] at hs
                  omega
                have hsr : sizeOf rest ≤ n := by
                  simp only [List.cons.sizeOf_spec] at hs
                  omega
                rw [resolveFields_cons, resolveFields_cons,
                  ih y ctx t1 t2 hsy hp.1]
                cases hX : resolveValue y ctx t2 with
                | mk t2' r =>
                    cases r with
                    | error e => simp
                    | ok rv =>
                        simp only []
                        rw [ihf t1 t2' hsr hp.2]
                        cases hY : resolveFields rest ctx t2' with
                        | mk t2'' rr => cases rr <;> simp
          rw [resolveValue_plain fields ctx s1 hin href hnow htemp hinc hdec
              hpush hpull hats hdef hif,
            resolveValue_plain fields ctx s2 hin href hnow htemp hinc hdec
              hpush hpull hats hdef hif,
            hffields fields s1 s2 hszf hpf]
          cases hX : resolveFields fields ctx s2 with
          | mk s2' r => cases r <;> simp


/-- **C9** (confirmed).  A tree containing no `$now` and no `$temp`
reference nodes (no subtree-object carries either marker key, as decided
by `pureTree`) resolves deterministically against a fixed context:
resolution leaves the host state untouched, resolving a second time from
the state left by the first yields a structurally equal outcome, and the
outcome does not depend on the state at all. -/
theorem pure_tree_resolution_deterministic (v : Value) (ctx : EvalContext)
    (hp : pureTree v = true) :
    ∀ s : RState,
      resolveValue v ctx s = (s, (resolveValue v ctx s).2)
      ∧ (resolveValue v ctx ((resolveValue v ctx s).1)).2
          = (resolveValue v ctx s).2
      ∧ ∀ s' : RState, (resolveValue v ctx s').2 = (resolveValue v ctx s).2 := by
  intro s
  have hdet : ∀ t1 t2 : RState,
      resolveValue v ctx t1 = (t1, (resolveValue v ctx t2).2) := fun t1 t2 =>
    resolveValue_pure_det (sizeOf v) v ctx t1 t2 (Nat.le_refl _) hp
  refine ⟨hdet s s, ?_, fun s' => ?_⟩
  · rw [hdet ((resolveValue v ctx s).1) s]
  · rw [hdet s' s]

/-- Witness for `pure_tree_resolution_deterministic` on the pure tree
`{a: 1, b: ["x", {$inc: 2}]}`: resolution leaves the state unchanged. -/
theorem pure_tree_resolution_deterministic_witness :
    resolveValue
        (.obj [("a", .num 1), ("b", .arr [.str "x", .obj [("$inc", .num 2)]])])
        ctxT sT
      = (sT, (resolveValue
          (.obj [("a", .num 1), ("b", .arr [.str "x", .obj [("$inc", .num 2)]])])
          ctxT sT).2) :=
  (pure_tree_resolution_deterministic
    (.obj [("a", .num 1), ("b", .arr [.str "x", .obj [("$inc", .num 2)]])])
    ctxT (by simp [pureTree, pureList, pureFields, hasKey]) sT).1

end UDSL
